import Mathlib

/-!
# span: rule matching, holdings cache, labelling and their neighbours

A shallow embedding of `cmd/span-tagger/main.go`, followed by the parts of
`cmd/span-tag`, `cmd/span-export`, `cmd/span`, `cmd/span-attach`, `sets`,
`filter` and `jats` that the statements below are about, and by a model of
the coverage check of `crossref` taken from the specification.  Go strings are
Lean strings (records are decoded by `encoding/json`, which yields valid UTF-8,
for which byte order and code point order agree).  A Go map with string keys
is an association list that is read front to back and written by consing; a
nil map and an empty map are both `[]`.  Everything outside the process (file
system, network, rule database, the `licensing` and `kbart` packages) is either
a field of the immutable `Env` or part of the mutable `World`.
-/

set_option autoImplicit false

namespace Span

/-! ## Data model -/

/-- The fields of `finc.IntermediateSchema` that the tagger reads. -/
structure IntermediateSchema where
  ID : String
  SourceID : String
  MegaCollections : List String
  ISSN : List String
  EISSN : List String
  RawDate : String
  Volume : String
  Issue : String
  Labels : List String
  DOI : String := ""
  Packages : List String := []
deriving DecidableEq, Repr

/-- ConfigRow decribing a single entry (e.g. an attachment request). -/
structure ConfigRow where
  ShardLabel : String := ""
  ISIL : String := ""
  SourceID : String := ""
  TechnicalCollectionID : String := ""
  MegaCollection : String := ""
  HoldingsFileURI : String := ""
  HoldingsFileLabel : String := ""
  LinkToHoldingsFile : String := ""
  EvaluateHoldingsFileForLibrary : String := ""
  ContentFileURI : String := ""
  ContentFileLabel : String := ""
  LinkToContentFile : String := ""
  ExternalLinkToContentFile : String := ""
  ProductISIL : String := ""
  DokumentURI : String := ""
  DokumentLabel : String := ""
deriving DecidableEq, Repr

/-- A Go `map[string]α`. -/
abbrev GoMap (α : Type) := List (String × α)

/-- Reading `m[k]` with the comma-ok form. -/
def GoMap.get? {α : Type} (m : GoMap α) (k : String) : Option α :=
  List.lookup k m

/-- The assignment `m[k] = v`. -/
def GoMap.set {α : Type} (m : GoMap α) (k : String) (v : α) : GoMap α :=
  (k, v) :: m

/-- Error values the tagger can return. -/
inductive Err where
  /-- Line 111: `expected cache directory at: dir`. -/
  | expectedCacheDir (dir : String)
  /-- Line 273: `config provides holding file, but does not want to evaluate it: row`. -/
  | holdingNotEvaluated (row : ConfigRow)
  /-- Line 286: `none of the attachment modes match for doc`. -/
  | noAttachmentMode (doc : IntermediateSchema)
  /-- An error value handed up from a library call (os, zip, kbart, pester, sqlx). -/
  | lib (msg : String)
deriving DecidableEq, Repr

/-- How a Go call ends: a normal return, an error return, or a run-time panic. -/
inductive Outcome (α : Type) where
  | ok (a : α)
  | err (e : Err)
  | panic
deriving DecidableEq, Repr

/-! ## The cache key -/

/-- Lexicographic comparison of two character sequences by code point, the
order of the Go operator `<=` on valid UTF-8 strings. -/
def leChars : List Char → List Char → Bool
  | [], _ => true
  | _ :: _, [] => false
  | a :: as, b :: bs => decide (a.toNat < b.toNat) || (a.toNat == b.toNat && leChars as bs)

/-- The order `sort.Strings` sorts by. -/
def strLe (a b : String) : Prop := leChars a.data b.data = true

instance strLe.decidable : DecidableRel strLe :=
  fun a b => inferInstanceAs (Decidable (leChars a.data b.data = true))

/-- The effect of `sort.Strings`: the strings in ascending order. -/
def sortStrings (v : List String) : List String :=
  v.insertionSort strLe

/-- The call `strings.Join(v, sep)`. -/
def stringsJoin (v : List String) (sep : String) : String :=
  sep.intercalate v

/-- cacheKey returns a key for a document, containing a subset (e.g. sid and
collections) of fields.  `v := doc.MegaCollections; sort.Strings(v)` sorts the
slice the document holds, so the document comes back with it. -/
def cacheKey (doc : IntermediateSchema) : String × IntermediateSchema :=
  let v := sortStrings doc.MegaCollections
  (doc.SourceID ++ "@" ++ stringsJoin v "@", { doc with MegaCollections := v })

/-! ## The world outside the process -/

/-- One member of a zip archive: what `f.Open()` yields, an error or the bytes
the reader delivers. -/
structure ZipMember where
  content : Except String String

/-- A response of `pester.Get`, of whatever status code (download does not look
at the status): what `ioutil.ReadAll(resp.Body)` yields. -/
structure Response where
  body : Except String String

/-- One row of table `amsl`, the eight columns the tagger selects. -/
structure AmslRow where
  isil : String
  sid : String
  tcid : String
  mc : String
  hflink : String
  hfeval : String
  cflink : String
  cfelink : String
deriving DecidableEq, Repr

/-- The rule store behind a read-only connection: the rows of table `amsl` in
the order a scan delivers them, and the failures of the driver. -/
structure Store where
  rows : List AmslRow
  /-- The error of `db.Query` for a source id and a collection list, if any. -/
  queryErr : String → List String → Option String
  /-- The error of `rows.Scan` on a row, if any. -/
  scanErr : AmslRow → Option String
  /-- A failure of `rows.Next` while the result of a query (source id, collection
  list) is stepped through: the number of rows delivered before it, `none` when
  the iteration reaches the end of the result. -/
  nextFailsAfter : String → List String → Option Nat

/-- The parts of the environment a run does not change; `ε` is
`licensing.Entry`. -/
structure Env (ε : Type) where
  /-- The directory `xdg.CacheHome`, a clean absolute path. -/
  cacheHome : String
  /-- The hexadecimal SHA-1 digest of a string. -/
  sha1hex : String → String
  /-- Paths on which `os.Stat` fails with an error other than "not exist". -/
  statErr : String → Bool
  /-- The error of `os.MkdirAll` on a path, if any. -/
  mkdirErr : String → Option String
  /-- The result of `pester.Get` on a link. -/
  get : String → Except String Response
  /-- The error of `atomic.WriteFile` on a path, if any. -/
  writeErr : String → Option String
  /-- The result of `zip.OpenReader` on a file with the given content. -/
  zipOpen : String → Except String (List ZipMember)
  /-- The error of `os.Open` on an existing path, if any. -/
  openErr : String → Option String
  /-- The method `kbart.Holdings.ReadFrom`: the holdings read so far, the bytes of
  the reader, and the holdings afterwards or an error. -/
  readFrom : List ε → String → Except String (List ε)
  /-- The method `kbart.Holdings.SerialNumberMap`. -/
  serialNumberMap : List ε → GoMap (List ε)
  /-- The method `licensing.Entry.Covers(date, volume, issue)`: `none` is the nil
  error, the entry covers the issue. -/
  covers : ε → String → String → String → Option String
  /-- The result of `sqlx.Connect("sqlite3", dsn)`. -/
  connect : String → Except String Store

/-- The parts of the environment a run changes or writes to. -/
structure World where
  /-- Existing directories. -/
  dirs : List String
  /-- Existing regular files and their content. -/
  files : GoMap String
  /-- Links requested with `pester.Get`, oldest first. -/
  fetched : List String
  /-- Queries sent to the rule store, oldest first: source id and collections. -/
  queries : List (String × List String)
  /-- Lines written to standard output, oldest first. -/
  stdout : List String
deriving DecidableEq, Repr

/-- What `os.Stat` reports, as far as populate looks at it. -/
inductive StatResult where
  | notExist
  | dir
  | file
  | otherErr
deriving DecidableEq, Repr

/-- The call `os.Stat(p)`. -/
def osStat {ε : Type} (env : Env ε) (w : World) (p : String) : StatResult :=
  if env.statErr p then .otherErr
  else if p ∈ w.dirs then .dir
  else if (w.files.get? p).isSome then .file
  else .notExist

/-- The call `os.MkdirAll(p, 0755)`; only `p` itself is looked at later. -/
def osMkdirAll {ε : Type} (env : Env ε) (w : World) (p : String) : World × Option Err :=
  match env.mkdirErr p with
  | some e => (w, some (.lib e))
  | none => ({ w with dirs := p :: w.dirs }, none)

/-- The call `os.Open(p)` followed by reading the file. -/
def osOpen {ε : Type} (env : Env ε) (w : World) (p : String) : Except Err String :=
  match env.openErr p with
  | some e => .error (.lib e)
  | none =>
    match w.files.get? p with
    | some b => .ok b
    | none => .error (.lib ("open " ++ p ++ ": no such file or directory"))

/-- The call `zip.OpenReader(p)`. -/
def zipOpenReader {ε : Type} (env : Env ε) (w : World) (p : String) :
    Except Err (List ZipMember) :=
  match w.files.get? p with
  | none => .error (.lib ("open " ++ p ++ ": no such file or directory"))
  | some b =>
    match env.zipOpen b with
    | .ok ms => .ok ms
    | .error e => .error (.lib e)

/-- download retrieves a link and saves its content atomically in filename. -/
def download {ε : Type} (env : Env ε) (w : World) (link filename : String) :
    World × Option Err :=
  let w := { w with fetched := w.fetched ++ [link] }
  match env.get link with
  | .error e => (w, some (.lib e))
  | .ok resp =>
    match resp.body with
    | .error e => (w, some (.lib e))
    | .ok b =>
      match env.writeErr filename with
      | some e => (w, some (.lib e))
      | none => ({ w with files := w.files.set filename b }, none)

/-! ## The holdings cache -/

/-- HFCache wraps access to holdings files: entries maps a link or filename to
a map from ISSN to licensing entries. -/
structure HFCache (ε : Type) where
  entries : GoMap (GoMap (List ε))

/-- State after a call on the holdings cache, and what the call returned. -/
structure HFRet (ε α : Type) where
  world : World
  cache : HFCache ε
  out : Outcome α

/-- The directory of the cached files, `path.Dir` of every cacheFilename. -/
def cacheDir {ε : Type} (env : Env ε) : String :=
  env.cacheHome ++ "/span"

/-- cacheFilename returns the path to the locally cached version of this URL:
`filepath.Join(xdg.CacheHome, "span", hex(sha1(hflink)))`. -/
def cacheFilename {ε : Type} (env : Env ε) (hflink : String) : String :=
  cacheDir env ++ "/" ++ env.sha1hex hflink

/-- Lines 106-112 of populate: the cache directory is created when missing and
must be a directory; a stat error other than "not exist" leaves `fi` nil, and
`fi.IsDir()` panics. -/
def ensureDir {ε : Type} (env : Env ε) (w : World) (dir : String) : World × Outcome Unit :=
  match osStat env w dir with
  | .notExist =>
    match osMkdirAll env w dir with
    | (w', some e) => (w', .err e)
    | (w', none) => (w', .ok ())
  | .dir => (w, .ok ())
  | .file => (w, .err (.expectedCacheDir dir))
  | .otherErr => (w, .panic)

/-- Lines 113-117 of populate: the link is downloaded when no file is cached. -/
def ensureFile {ε : Type} (env : Env ε) (w : World) (hflink filename : String) :
    World × Option Err :=
  match osStat env w filename with
  | .notExist => download env w hflink filename
  | _ => (w, none)

/-- Lines 124-133 of populate: every member of the archive is read into `h`. -/
def readMembers {ε : Type} (env : Env ε) : List ε → List ZipMember → Except Err (List ε)
  | h, [] => .ok h
  | h, f :: fs =>
    match f.content with
    | .error e => .error (.lib e)
    | .ok rc =>
      match env.readFrom h rc with
      | .error e => .error (.lib e)
      | .ok h' => readMembers env h' fs

/-- Lines 118-143 of populate: the file is read as a zip archive, and as a plain
file when it cannot be opened as an archive. -/
def readHoldings {ε : Type} (env : Env ε) (w : World) (filename : String) :
    Except Err (List ε) :=
  match zipOpenReader env w filename with
  | .ok members => readMembers env [] members
  | .error _ =>
    match osOpen env w filename with
    | .error e => .error e
    | .ok f =>
      match env.readFrom [] f with
      | .error e => .error (.lib e)
      | .ok h => .ok h

/-- populate fills the entries map from a given URL. -/
def HFCache.populate {ε : Type} (env : Env ε) (w : World) (c : HFCache ε) (hflink : String) :
    HFRet ε Unit :=
  match c.entries.get? hflink with
  | some _ => ⟨w, c, .ok ()⟩
  | none =>
    let filename := cacheFilename env hflink
    let dir := cacheDir env
    match ensureDir env w dir with
    | (w1, .err e) => ⟨w1, c, .err e⟩
    | (w1, .panic) => ⟨w1, c, .panic⟩
    | (w1, .ok ()) =>
      match ensureFile env w1 hflink filename with
      | (w2, some e) => ⟨w2, c, .err e⟩
      | (w2, none) =>
        match readHoldings env w2 filename with
        | .error e => ⟨w2, c, .err e⟩
        | .ok h => ⟨w2, { c with entries := c.entries.set hflink (env.serialNumberMap h) }, .ok ()⟩

/-- The inner loop of Covers, lines 163-168: true at the first entry whose
Covers returns the nil error. -/
def coversEntries {ε : Type} (env : Env ε) (doc : IntermediateSchema) : List ε → Bool
  | [] => false
  | entry :: rest =>
    match env.covers entry doc.RawDate doc.Volume doc.Issue with
    | none => true
    | some _ => coversEntries env doc rest

/-- The outer loop of Covers, lines 162-169, over the serial numbers. -/
def coversIssns {ε : Type} (env : Env ε) (index : GoMap (List ε)) (doc : IntermediateSchema) :
    List String → Bool
  | [] => false
  | issn :: rest =>
    if coversEntries env doc ((index.get? issn).getD []) then true
    else coversIssns env index doc rest

/-- Covers returns true, if a holdings file, given by link or filename, covers
the document. The cache takes care of downloading the file, if necessary. -/
def HFCache.Covers {ε : Type} (env : Env ε) (w : World) (c : HFCache ε) (hflink : String)
    (doc : IntermediateSchema) : HFRet ε Bool :=
  match HFCache.populate env w c hflink with
  | ⟨w1, c1, .err e⟩ => ⟨w1, c1, .err e⟩
  | ⟨w1, c1, .panic⟩ => ⟨w1, c1, .panic⟩
  | ⟨w1, c1, .ok ()⟩ =>
    ⟨w1, c1, .ok (coversIssns env ((c1.entries.get? hflink).getD []) doc (doc.ISSN ++ doc.EISSN))⟩

/-! ## The labeler -/

/-- Labeler updates an intermediate schema document.  The field `db` is `none`
for the nil connection; `hfcache` is the cache main allocates. -/
structure Labeler (ε : Type) where
  dbFile : String
  db : Option Store
  cache : GoMap (List ConfigRow)
  hfcache : HFCache ε

/-- State after a call on the labeler, the document as the call leaves it, and
what the call returned. -/
structure LRet (ε α : Type) where
  world : World
  labeler : Labeler ε
  doc : IntermediateSchema
  out : Outcome α

/-- The method `open`: opens the database connection, read-only. -/
def Labeler.openDb {ε : Type} (env : Env ε) (l : Labeler ε) : Labeler ε × Option Err :=
  match l.db with
  | some _ => (l, none)
  | none =>
    match env.connect (l.dbFile ++ "?ro=1") with
    | .ok s => ({ l with db := some s }, none)
    | .error e => (l, some (.lib e))

/-- The call `sqlx.In` of matchingRows: it fails on an empty slice argument. -/
def sqlxIn (colls : List String) : Option Err :=
  if colls.isEmpty then some (.lib "empty slice passed to in query") else none

/-- The WHERE clause `sid = ? AND (mc IN (?) OR tcid IN (?))`. -/
def selects (sid : String) (colls : List String) (r : AmslRow) : Bool :=
  r.sid == sid && (colls.contains r.mc || colls.contains r.tcid)

/-- The assignment of `rows.Scan`: the eight selected columns in order. -/
def scanRow (r : AmslRow) : ConfigRow :=
  { ISIL := r.isil
    SourceID := r.sid
    TechnicalCollectionID := r.tcid
    MegaCollection := r.mc
    LinkToHoldingsFile := r.hflink
    EvaluateHoldingsFileForLibrary := r.hfeval
    ContentFileURI := r.cflink
    ExternalLinkToContentFile := r.cfelink }

/-- The rows `rows.Next()` delivers for a query, lines 235-239: the rows of the
store the query selects, in store order, up to a failure of `rows.Next()`.  Such
a failure makes `rows.Next()` return false, as the end of the result does, and
`rows.Err()` is not consulted anywhere in matchingRows. -/
def deliveredRows (s : Store) (sid : String) (colls : List String) : List AmslRow :=
  match s.nextFailsAfter sid colls with
  | none => s.rows.filter (selects sid colls)
  | some k => (s.rows.filter (selects sid colls)).take k

/-- The loop `for rows.Next()` of matchingRows, lines 239-253, over the rows
delivered. -/
def scanRows (s : Store) : List ConfigRow → List AmslRow → Except Err (List ConfigRow)
  | result, [] => .ok result
  | result, r :: rs =>
    match s.scanErr r with
    | some e => .error (.lib e)
    | none => scanRows s (result ++ [scanRow r]) rs

/-- matchingRows returns a list of relevant rows for a given document. -/
def Labeler.matchingRows {ε : Type} (w : World) (l : Labeler ε)
    (doc : IntermediateSchema) : LRet ε (List ConfigRow) :=
  let key := (cacheKey doc).1
  let doc := (cacheKey doc).2
  match l.cache.get? key with
  | some v => ⟨w, l, doc, .ok v⟩
  | none =>
    if doc.MegaCollections.length = 0 then ⟨w, l, doc, .ok []⟩
    else
      match sqlxIn doc.MegaCollections with
      | some e => ⟨w, l, doc, .err e⟩
      | none =>
        match l.db with
        | none => ⟨w, l, doc, .panic⟩
        | some s =>
          let w1 := { w with queries := w.queries ++ [(doc.SourceID, doc.MegaCollections)] }
          match s.queryErr doc.SourceID doc.MegaCollections with
          | some e => ⟨w1, l, doc, .err (.lib e)⟩
          | none =>
            match scanRows s [] (deliveredRows s doc.SourceID doc.MegaCollections) with
            | .error e => ⟨w1, l, doc, .err e⟩
            | .ok result => ⟨w1, { l with cache := l.cache.set key result }, doc, .ok result⟩

/-- The loop over the rows in Label, lines 270-288; `labels` is the key set of
the map of ISILs to attach. -/
def labelRows {ε : Type} (env : Env ε) (doc : IntermediateSchema) :
    World → HFCache ε → List String → List ConfigRow → HFRet ε (List String)
  | w, c, labels, [] => ⟨w, c, .ok labels⟩
  | w, c, labels, row :: rows =>
    if row.EvaluateHoldingsFileForLibrary = "no" ∧ row.LinkToHoldingsFile ≠ "" then
      ⟨w, c, .err (.holdingNotEvaluated row)⟩
    else if row.EvaluateHoldingsFileForLibrary = "yes" ∧ row.LinkToHoldingsFile ≠ "" then
      match HFCache.Covers env w c row.LinkToHoldingsFile doc with
      | ⟨w1, c1, .err e⟩ => ⟨w1, c1, .err e⟩
      | ⟨w1, c1, .panic⟩ => ⟨w1, c1, .panic⟩
      | ⟨w1, c1, .ok ok⟩ =>
        labelRows env doc w1 c1 (if ok then labels.insert row.ISIL else labels) rows
    else if row.EvaluateHoldingsFileForLibrary = "no" then
      labelRows env doc w c (labels.insert row.ISIL) rows
    else if row.ContentFileURI ≠ "" then
      labelRows env doc w c labels rows
    else
      ⟨w, c, .err (.noAttachmentMode doc)⟩

/-- The line Label prints: `fmt.Printf("%s\t%s\n", doc.ID, strings.Join(keys, ", "))`. -/
def labelLine (doc : IntermediateSchema) (keys : List String) : String :=
  doc.ID ++ "\t" ++ stringsJoin keys ", " ++ "\n"

/-- Label updates document in place. -/
def Labeler.Label {ε : Type} (env : Env ε) (w : World) (l : Labeler ε)
    (doc : IntermediateSchema) : LRet ε Unit :=
  match l.openDb env with
  | (l0, some e) => ⟨w, l0, doc, .err e⟩
  | (l0, none) =>
    match l0.matchingRows w doc with
    | ⟨w1, l1, doc1, .err e⟩ => ⟨w1, l1, doc1, .err e⟩
    | ⟨w1, l1, doc1, .panic⟩ => ⟨w1, l1, doc1, .panic⟩
    | ⟨w1, l1, doc1, .ok rows⟩ =>
      match labelRows env doc1 w1 l1.hfcache [] rows with
      | ⟨w2, c2, .err e⟩ => ⟨w2, { l1 with hfcache := c2 }, doc1, .err e⟩
      | ⟨w2, c2, .panic⟩ => ⟨w2, { l1 with hfcache := c2 }, doc1, .panic⟩
      | ⟨w2, c2, .ok labels⟩ =>
        let keys := sortStrings labels
        ⟨{ w2 with stdout := w2.stdout ++ [labelLine doc1 keys] },
          { l1 with hfcache := c2 }, doc1, .ok ()⟩

/-! ## Sample data

A small rule store, environment and world on which the statements below are
evaluated.  A licensing entry of the sample is a pair of years. -/

/-- The year a date starts with: the first four digits. -/
def sampleYear (date : String) : Nat :=
  (date.data.take 4).foldl (fun n c => 10 * n + (c.toNat - 48)) 0

/-- The sample rule of source 49: collection ColA, holdings file evaluated. -/
def amslHoldings : AmslRow :=
  ⟨"DE-15", "49", "t49", "ColA", "http://h/ok", "yes", "", ""⟩

/-- The sample rule of source 1: empty collection names, no holdings file. -/
def amslPlain : AmslRow :=
  ⟨"DE-14", "1", "", "", "", "no", "", ""⟩

/-- A sample rule whose holdings file cannot be fetched. -/
def amslDown (sid : String) : AmslRow :=
  ⟨"DE-A", sid, "t" ++ sid, "M", "http://h/down", "yes", "", ""⟩

/-- A sample rule that has a holdings file but does not evaluate it. -/
def amslUneval (sid : String) : AmslRow :=
  ⟨"DE-B", sid, "t" ++ sid, "M", "http://h/b", "no", "", ""⟩

/-- A sample rule of source 5 without holdings file. -/
def amslAttach (isil coll : String) : AmslRow :=
  ⟨isil, "5", "t5", coll, "", "no", "", ""⟩

/-- A sample rule that attaches without a holdings file. -/
def amslFree (sid : String) : AmslRow :=
  ⟨"DE-14", sid, "t" ++ sid, "M", "", "no", "", ""⟩

/-- The sample rules: for sources 2 and 3 the rule with the unreachable
holdings file stands next to the rule with the unevaluated one, in either
order; for source 7 it stands behind a rule without holdings file. -/
def sampleRows : List AmslRow :=
  [ amslHoldings, amslPlain, amslDown "2", amslUneval "2", amslUneval "3", amslDown "3",
    amslAttach "DE-15" "ColA", amslAttach "DE-14" "ColB", amslFree "7", amslDown "7" ]

/-- The sample store: the sample rules, no driver failures. -/
def sampleStore : Store :=
  { rows := sampleRows
    queryErr := fun _ _ => none
    scanErr := fun _ => none
    nextFailsAfter := fun _ _ => none }

/-- The sample store read from a damaged database file: stepping through the
result of a query fails after the first row. -/
def sampleDamagedStore : Store :=
  { sampleStore with nextFailsAfter := fun _ _ => some 1 }

/-- The sample environment: only `http://h/ok` can be fetched, it holds one
entry for ISSN 1234-5678 covering the years 2000 to 2010. -/
def sampleEnv : Env (Nat × Nat) :=
  { cacheHome := "/c"
    sha1hex := fun s => s
    statErr := fun _ => false
    mkdirErr := fun _ => none
    get := fun link =>
      if link = "http://h/ok" then .ok ⟨.ok "1234-5678 2000 2010"⟩
      else .error "connection refused"
    writeErr := fun _ => none
    zipOpen := fun _ => .error "zip: not a valid zip file"
    openErr := fun _ => none
    readFrom := fun h b =>
      if b = "1234-5678 2000 2010" then .ok (h ++ [(2000, 2010)]) else .error "malformed"
    serialNumberMap := fun h => if h.isEmpty then [] else [("1234-5678", h)]
    covers := fun e date _ _ =>
      if e.1 ≤ sampleYear date ∧ sampleYear date ≤ e.2 then none else some "not covered"
    connect := fun _ => .ok sampleStore }

/-- The sample world at start: an empty cache directory, nothing logged. -/
def sampleWorld : World :=
  { dirs := ["/c/span"], files := [], fetched := [], queries := [], stdout := [] }

/-- The labeler main constructs. -/
def sampleLabeler : Labeler (Nat × Nat) :=
  { dbFile := "amsl.db", db := none, cache := [], hfcache := ⟨[]⟩ }

/-- The sample labeler once the connection is open. -/
def sampleOpened : Labeler (Nat × Nat) :=
  { sampleLabeler with db := some sampleStore }

/-- The sample labeler with an open connection to the damaged database file. -/
def sampleDamaged : Labeler (Nat × Nat) :=
  { sampleLabeler with db := some sampleDamagedStore }

/-- A record of a source with the given collections, of 2004. -/
def sampleDoc (sid : String) (colls : List String) : IntermediateSchema :=
  { ID := "id-" ++ sid, SourceID := sid, MegaCollections := colls,
    ISSN := ["1234-5678"], EISSN := [], RawDate := "2004-06-01",
    Volume := "3", Issue := "4", Labels := [] }

/-! ## span-tag: deduplication against an index

An embedding of `cmd/span-tag/main.go`.  The flags the functions read are a
record; `http.Get`, the JSON decoder and `url.QueryEscape` are parameters. -/

/-- The function `unicode.IsSpace`. -/
def isSpace (c : Char) : Bool :=
  let n := c.toNat
  (9 ≤ n && n ≤ 13) || n == 32 || n == 133 || n == 160 || n == 5760 ||
    (8192 ≤ n && n ≤ 8202) || n == 8232 || n == 8233 || n == 8239 || n == 8287 || n == 12288

/-- The loop of `strings.Fields` over the characters; `cur` is the field being
read. -/
def fieldsGo (cur : List Char) : List Char → List (List Char)
  | [] => if cur.isEmpty then [] else [cur]
  | c :: cs =>
    if isSpace c then
      if cur.isEmpty then fieldsGo [] cs else cur :: fieldsGo [] cs
    else fieldsGo (cur ++ [c]) cs

/-- The call `strings.Fields(s)`: the maximal runs of non-space characters. -/
def stringsFields (s : String) : List String :=
  (fieldsGo [] s.data).map String.mk

/-- The call `strings.TrimSpace(s)`: leading and trailing white space removed. -/
def stringsTrimSpace (s : String) : String :=
  String.mk ((s.data.dropWhile isSpace).reverse.dropWhile isSpace).reverse

/-- The flags of span-tag that the deduplication reads. -/
structure TagFlags where
  /-- Flag `-server`. -/
  server : String
  /-- Flag `-prefs`, most preferred source id first. -/
  prefs : String
  /-- Flag `-isi`. -/
  ignoreSameIdentifier : Bool

/-- The default of flag `-prefs`. -/
def defaultPrefs : String := "85 55 89 60 50 105 34 101 53 49 28 48 121"

/-- One element of `SelectResponse.Response.Docs`. -/
structure SolrDoc where
  ID : String
  Institution : List String
  SourceID : String
deriving DecidableEq, Repr

/-- SelectResponse with reduced fields: the docs of the response. -/
structure SelectResponse where
  docs : List SolrDoc
deriving DecidableEq, Repr

/-- The index as DroppableLabels sees it. -/
structure Solr where
  /-- The function `url.QueryEscape`. -/
  queryEscape : String → String
  /-- The call `http.Get(link)`: the body of the response, or an error. -/
  get : String → Except String String
  /-- The JSON decoder on a body. -/
  decode : String → Except String SelectResponse

/-- stringSliceContains returns true, if a given string is contained in a slice. -/
def stringSliceContains : List String → String → Bool
  | [], _ => false
  | v :: ss, s => if v = s then true else stringSliceContains ss s

/-- The loop of preferencePosition over the fields, from position `pos` on. -/
def preferenceLoop (sid : String) : Nat → List String → Int
  | _, [] => 1000
  | pos, v :: fields =>
    if stringsTrimSpace v = sid then (pos : Int) else preferenceLoop sid (pos + 1) fields

/-- preferencePosition returns the position of a given preference as int.
Smaller means preferred. If there is no match, return some higher number
(low prio). -/
def preferencePosition (flags : TagFlags) (sid : String) : Int :=
  preferenceLoop sid 0 (stringsFields flags.prefs)

/-- The inner loop of DroppableLabels, lines 129-145: whether the label is
appended. -/
def droppable (flags : TagFlags) (rec : IntermediateSchema) (label : String) :
    List SolrDoc → Bool
  | [] => false
  | doc :: docs =>
    if flags.ignoreSameIdentifier && doc.ID == rec.ID then droppable flags rec label docs
    else if !stringSliceContains doc.Institution label then droppable flags rec label docs
    else if preferencePosition flags rec.SourceID ≥ preferencePosition flags doc.SourceID then true
    else droppable flags rec label docs

/-- The outer loop of DroppableLabels, lines 125-146, over the labels of the
record. -/
def droppableLoop (flags : TagFlags) (rec : IntermediateSchema) (docs : List SolrDoc) :
    List String → List String → List String
  | labels, [] => labels
  | labels, label :: rest =>
    if droppable flags rec label docs then droppableLoop flags rec docs (labels ++ [label]) rest
    else droppableLoop flags rec docs labels rest

/-- The link DroppableLabels requests. -/
def selectLink (flags : TagFlags) (solr : Solr) (doi : String) : String :=
  flags.server ++ "/select?df=allfields&wt=json&q=\"" ++ solr.queryEscape doi ++ "\""

/-- DroppableLabels returns a list of labels, that can be dropped with regard to
an index. If document has no DOI, there is nothing to return. -/
def DroppableLabels (flags : TagFlags) (solr : Solr) (rec : IntermediateSchema) :
    Except String (List String) :=
  let doi := stringsTrimSpace rec.DOI
  if doi = "" then .ok []
  else
    match solr.get (selectLink flags solr doi) with
    | .error e => .error e
    | .ok body =>
      match solr.decode body with
      | .error e => .error e
      | .ok sr => .ok (droppableLoop flags rec sr.docs [] rec.Labels)

/-! ## span-export and span: reading the input in batches -/

/-- The call `ReadString('\n')` of a bufio reader on the unread input: the line
up to and including the first newline together with the input after it, or
`none` for the error `io.EOF`, when the input ends before a newline (the bytes
read so far come back with the error). -/
def readString : List Char → Option (List Char × List Char)
  | [] => none
  | c :: cs =>
    if c = '\n' then some ([c], cs)
    else
      match readString cs with
      | some (line, rest) => some (c :: line, rest)
      | none => none

/-- The variables of the reading loop of span-export: the batches sent on
`queue` so far (oldest first), `batch` and `i`. -/
structure ExportState where
  queue : List (List String)
  batch : List String
  i : Nat
deriving DecidableEq, Repr

/-- The loop over one reader in span-export, lines 276-292, with at most `fuel`
reads; `size` is flag `-b`, and `i % size` panics when it is zero. -/
def exportReadLoop (size : Nat) : Nat → List Char → ExportState → Outcome ExportState
  | 0, _, st => .ok st
  | fuel + 1, input, st =>
    match readString input with
    | none => .ok st
    | some (line, rest) =>
      let batch := st.batch ++ [String.mk line]
      if size = 0 then .panic
      else if st.i % size = 0 then
        exportReadLoop size fuel rest { queue := st.queue ++ [batch], batch := [], i := st.i + 1 }
      else
        exportReadLoop size fuel rest { st with batch := batch, i := st.i + 1 }

/-- The loop over the readers in span-export, lines 274-293; a read consumes at
least one character, so the length of a text bounds the reads on it. -/
def exportReaders (size : Nat) : List String → ExportState → Outcome ExportState
  | [], st => .ok st
  | r :: readers, st =>
    match exportReadLoop size r.data.length r.data st with
    | .ok st1 => exportReaders size readers st1
    | .err e => .err e
    | .panic => .panic

/-- The reader of span-export's main, lines 256-297: all batches placed on the
worker queue, the rest of `batch` last. -/
def exportBatches (size : Nat) (readers : List String) : Outcome (List (List String)) :=
  match exportReaders size readers { queue := [], batch := [], i := 0 } with
  | .ok st => .ok (st.queue ++ [st.batch])
  | .err e => .err e
  | .panic => .panic

/-- The variables of the reading loop of span: the batches sent on `batches` so
far (oldest first, each as it is when sent), `batch` and `i`. -/
structure SpanState where
  sent : List (List String)
  batch : List String
  i : Int
deriving DecidableEq, Repr

/-- The loop of span's main, lines 127-142, with at most `fuel` reads. -/
def spanReadLoop (batchSize : Nat) : Nat → List Char → SpanState → SpanState
  | 0, _, st => st
  | fuel + 1, input, st =>
    match readString input with
    | none => st
    | some (line, rest) =>
      let batch := st.batch ++ [String.mk line]
      if st.i = (batchSize : Int) - 1 then
        spanReadLoop batchSize fuel rest { sent := st.sent ++ [batch], batch := [], i := 0 + 1 }
      else
        spanReadLoop batchSize fuel rest { st with batch := batch, i := st.i + 1 }

/-- The reader of span's main, lines 125-143: `batch` starts as
`make([]string, *batchSize)`, a slice of that many empty strings, and is sent
once more after the loop. -/
def spanBatches (batchSize : Nat) (input : String) : List (List String) :=
  let st := spanReadLoop batchSize input.data.length input.data
    { sent := [], batch := List.replicate batchSize "", i := 0 }
  st.sent ++ [st.batch]

/-- The call `strings.Split(s, ",")` on the characters of `s`. -/
def splitComma : List Char → List (List Char)
  | [] => [[]]
  | c :: cs =>
    if c = ',' then [] :: splitComma cs
    else
      match splitComma cs with
      | [] => [[c]]
      | h :: t => (c :: h) :: t

/-- The second column of a line of Label: what stands between the first TAB and
the final newline. -/
def secondColumn (line : String) : List Char :=
  ((line.data.dropWhile (fun c => c != '\t')).drop 1).dropLast

/-- The sample flags of span-tag: the default preference list. -/
def sampleFlags (isi : Bool) : TagFlags :=
  { server := "http://solr", prefs := defaultPrefs, ignoreSameIdentifier := isi }

/-- A sample index: every request is answered by the given docs. -/
def sampleSolr (docs : List SolrDoc) : Solr :=
  { queryEscape := fun s => s
    get := fun _ => .ok "body"
    decode := fun _ => .ok ⟨docs⟩ }

/-- A sample record of span-tag with a DOI. -/
def sampleTagged (id sid : String) (labels : List String) : IntermediateSchema :=
  { ID := id, SourceID := sid, MegaCollections := [], ISSN := [], EISSN := [],
    RawDate := "", Volume := "", Issue := "", Labels := labels, DOI := "10.1/x" }

/-- The state of world and holdings cache after populate has been called for
each of the links in turn, whatever the calls return. -/
def populateAll {ε : Type} (env : Env ε) : World → HFCache ε → List String → World × HFCache ε
  | w, c, [] => (w, c)
  | w, c, k :: ks =>
    populateAll env (HFCache.populate env w c k).world (HFCache.populate env w c k).cache ks

/-- A sample record of source 1 whose collection list holds one empty name. -/
def sampleEmptyName : IntermediateSchema :=
  { sampleDoc "1" [""] with ID := "rec-a" }

/-- A sample record of source 1 without collections. -/
def sampleNoCollection : IntermediateSchema :=
  { sampleDoc "1" [] with ID := "rec-b" }

/-- The characters of `n` fields "a", each followed by a blank, then `tail`. -/
def longField : Nat → List Char → List Char
  | 0, tail => tail
  | n + 1, tail => 'a' :: ' ' :: longField n tail

/-- A preference list of 1001 fields: 1000 times "a", then "b". -/
def longPrefs : String := String.mk (longField 1000 ['b'])

/-! ## span-attach: the cache key -/

/-- The function cacheKey of `cmd/span-attach/main.go`:
`doc.SourceID + "@" + strings.Join(doc.MegaCollections, "@")`. -/
def Attach.cacheKey (doc : IntermediateSchema) : String :=
  doc.SourceID ++ "@" ++ stringsJoin doc.MegaCollections "@"

/-! ## Package sets: StringSet -/

/-- StringSet is map disguised as set: `set` is the map, `some keys` a map
that has been made, with its keys, each key once, and `none` the nil map, which
the zero value `StringSet{}` holds. -/
structure StringSet where
  set : Option (List String)
deriving DecidableEq, Repr

/-- Contains returns true if given string is in the set, false otherwise.  The
index expression `set.set[s]` finds nothing in a nil map. -/
def StringSet.Contains (set : StringSet) (s : String) : Bool :=
  match set.set with
  | none => false
  | some keys => decide (s ∈ keys)

/-- Size returns current number of elements in the set; `len` of a nil map is
zero. -/
def StringSet.Size (set : StringSet) : Nat :=
  match set.set with
  | none => 0
  | some keys => keys.length

/-- Add adds a string to a set, returns true if added, false it it already
existed (noop): the set after the assignment `set.set[s] = struct{}{}` and the
value `!found`.  The assignment to an entry of a nil map is a run-time panic. -/
def StringSet.Add (set : StringSet) (s : String) : Outcome (StringSet × Bool) :=
  match set.set with
  | none => .panic
  | some keys =>
    let found := decide (s ∈ keys)
    .ok (⟨some (keys.insert s)⟩, !found)

/-- The loop `for _, item := range s { ss.Add(item) }` of NewStringSet. -/
def addItems : StringSet → List String → Outcome StringSet
  | ss, [] => .ok ss
  | ss, item :: rest =>
    match ss.Add item with
    | .ok r => addItems r.1 rest
    | .err e => .err e
    | .panic => .panic

/-- NewStringSet returns a string set holding the given items: it makes the
map and adds the items. -/
def NewStringSet (s : List String) : Outcome StringSet :=
  addItems ⟨some []⟩ s

/-! ## Package filter -/

/-- A JSON document, as `encoding/json` reads it. -/
inductive Json where
  | null
  | bool (b : Bool)
  | num (n : Int)
  | str (s : String)
  | arr (items : List Json)
  | obj (fields : List (String × Json))

/-- The decoding of a JSON array into a `[]string`: an element must be a string
or null (which leaves the empty string). -/
def decodeStringItems : List Json → Except String (List String)
  | [] => .ok []
  | .str s :: rest =>
    match decodeStringItems rest with
    | .ok l => .ok (s :: l)
    | .error e => .error e
  | .null :: rest =>
    match decodeStringItems rest with
    | .ok l => .ok ("" :: l)
    | .error e => .error e
  | _ :: _ => .error "json: cannot unmarshal value into Go value of type string"

/-- The decoding of a JSON value into a `[]string` field. -/
def decodeStrings : Json → Except String (List String)
  | .null => .ok []
  | .arr items => decodeStringItems items
  | _ => .error "json: cannot unmarshal value into Go value of type []string"

/-- The lower case of an ASCII letter. -/
def asciiLower (c : Char) : Char :=
  if 65 ≤ c.toNat ∧ c.toNat ≤ 90 then Char.ofNat (c.toNat + 32) else c

/-- Whether an object key names the field tagged `json:"package"`; the decoder
accepts the key in any letter case. -/
def isPackageKey (key : String) : Bool :=
  key.data.map asciiLower == "package".data

/-- The fields of an object read into `struct { Packages []string }`, in
order; a later occurrence of the key replaces an earlier one. -/
def decodePackageFields : List String → List (String × Json) → Except String (List String)
  | packages, [] => .ok packages
  | packages, (key, v) :: rest =>
    if isPackageKey key then
      match decodeStrings v with
      | .ok l => decodePackageFields l rest
      | .error e => .error e
    else decodePackageFields packages rest

/-- The call `json.Unmarshal(p, &s)` of UnmarshalJSON for
`s struct { Packages []string "json:package" }`. -/
def decodePackages : Json → Except String (List String)
  | .null => .ok []
  | .obj fields => decodePackageFields [] fields
  | _ => .error "json: cannot unmarshal value into Go value of type struct"

/-- PackageFilter allows all records of one of the given package name.  The
type `container.StringSet` of the field is not under src; it is taken to be
the StringSet of package sets. -/
structure PackageFilter where
  values : StringSet
deriving DecidableEq, Repr

/-- The loop of Apply over the packages of the record. -/
def applyPackages (values : StringSet) : List String → Bool
  | [] => false
  | pkg :: rest => if values.Contains pkg then true else applyPackages values rest

/-- Apply filters packages. -/
def PackageFilter.Apply (f : PackageFilter) (rec : IntermediateSchema) : Bool :=
  applyPackages f.values rec.Packages

/-- UnmarshalJSON turns a config fragment into a filter. -/
def PackageFilter.UnmarshalJSON (p : Json) : Outcome PackageFilter :=
  match decodePackages p with
  | .error e => .err (.lib e)
  | .ok packages =>
    match NewStringSet packages with
    | .ok values => .ok ⟨values⟩
    | .err e => .err e
    | .panic => .panic

/-- A field of a struct type as `encoding/json` finds it by reflection: the
name in the declaration and the encoding of the value it holds. -/
structure StructField where
  name : String
  value : Json

/-- Whether an identifier is exported: it begins with an upper-case letter
(the names of the declarations here are ASCII). -/
def isExported (name : String) : Bool :=
  match name.data with
  | [] => false
  | c :: _ => c.isUpper

/-- The encoding `json.Marshal` gives a value of a struct type that has no
MarshalJSON method and no field tags: the object of the exported fields, in
the order of the declaration; a field that is not exported is left out. -/
def marshalStruct (fields : List StructField) : Json :=
  .obj ((fields.filter (fun fd => isExported fd.name)).map (fun fd => (fd.name, fd.value)))

/-- The encoding `json.Marshal` gives a string set: the declaration of
string.go, lines 5-7, has the one field `set`, a map with string keys. -/
def StringSet.marshalJSON (set : StringSet) : Json :=
  marshalStruct
    [ ⟨"set", match set.set with
        | none => .null
        | some keys => .obj (keys.map (fun k => (k, Json.obj [])))⟩ ]

/-- The encoding `json.Marshal` gives a package filter: the declaration of
package.go, lines 11-13, has the one field `values`, and package.go declares
the methods Apply and UnmarshalJSON only. -/
def PackageFilter.marshalJSON (f : PackageFilter) : Json :=
  marshalStruct [⟨"values", f.values.marshalJSON⟩]

/-- The configuration fragment with the given package names. -/
def packageFragment (ps : List String) : Json :=
  .obj [("package", .arr (ps.map Json.str))]

/-! ## jats: the page count -/

/-- The value of a string of decimal digits; `none` when the string is empty or
holds another character. -/
def digitsValue : List Char → Option Nat
  | [] => none
  | cs =>
    cs.foldl (fun acc c =>
      match acc with
      | none => none
      | some n => if 48 ≤ c.toNat ∧ c.toNat ≤ 57 then some (10 * n + (c.toNat - 48)) else none)
      (some 0)

/-- The function `strconv.Atoi` on a 64-bit platform: an optional sign and
decimal digits; `none` for a syntax or range error. -/
def atoi (s : String) : Option Int :=
  let signed : Option Int :=
    match s.data with
    | '-' :: cs => (digitsValue cs).map (fun n => - (n : Int))
    | '+' :: cs => (digitsValue cs).map (fun n => (n : Int))
    | cs => (digitsValue cs).map (fun n => (n : Int))
  match signed with
  | none => none
  | some v => if -9223372036854775808 ≤ v ∧ v ≤ 9223372036854775807 then some v else none

/-- The value of an int expression of 64 bits: two's complement wrap-around. -/
def wrapInt64 (x : Int) : Int :=
  (x + 9223372036854775808) % 18446744073709551616 - 9223372036854775808

/-- The parts of a jats Article that PageCount reads:
`Front.Article.FirstPage.Value` and `Front.Article.LastPage.Value`. -/
structure JatsArticle where
  FirstPage : String
  LastPage : String
deriving DecidableEq, Repr

/-- PageCount return the number of pages as string. -/
def JatsArticle.PageCount (article : JatsArticle) : String :=
  match atoi article.FirstPage with
  | none => ""
  | some first =>
    match atoi article.LastPage with
    | none => ""
    | some last =>
      if wrapInt64 (last - first) > 0 then toString (wrapInt64 (last - first)) else ""

/-! ## crossref: coverage of a document by an entitlement

The method `Document.CoveredBy` and the package `holdings` are not under src;
only `crossref/document_test.go` is. -/

/-- Modelled from the spec: the type `holdings.Entitlement`, an entitlement
entry with inclusive year bounds, volume and issue bounds and moving-wall
delays; a bound that is zero (a delay that is empty) is absent, as in the
literals of TestCoveredBy. -/
structure Entitlement where
  FromYear : Int := 0
  FromVolume : Int := 0
  FromIssue : Int := 0
  ToYear : Int := 0
  ToVolume : Int := 0
  ToIssue : Int := 0
  FromDelay : String := ""
  ToDelay : String := ""
deriving DecidableEq, Repr

/-- Modelled from the spec: the fields of `crossref.Document` that coverage
looks at: the date parts of the issue date, the volume and the issue. -/
structure Document where
  Issued : List (List Int) := []
  Volume : String := ""
  Issue : String := ""
deriving DecidableEq, Repr

/-- A calendar date. -/
structure Date where
  year : Int
  month : Int
  day : Int
deriving DecidableEq, Repr

/-- Whether date `a` is later than date `b`. -/
def Date.after (a b : Date) : Bool :=
  decide (a.year > b.year ∨ (a.year = b.year ∧ (a.month > b.month ∨
    (a.month = b.month ∧ a.day > b.day))))

/-- Modelled from the spec: the current date and the resolution of a delay
("-1Y") against it, which the spec leaves to the holdings package: `shift now d`
is the date `now` shifted by `d`, or an error for a delay that is no offset. -/
structure Clock where
  now : Date
  shift : Date → String → Except String Date

/-- Modelled from the spec: the year of the issue date of a document, if it has
one. -/
def Document.year (doc : Document) : Option Int :=
  match doc.Issued with
  | (y :: _) :: _ => some y
  | _ => none

/-- Modelled from the spec: the issue date of a document, if it has one; a
missing month or day counts as the first. -/
def Document.date (doc : Document) : Option Date :=
  match doc.Issued with
  | [y] :: _ => some ⟨y, 1, 1⟩
  | [y, m] :: _ => some ⟨y, m, 1⟩
  | (y :: m :: d :: _) :: _ => some ⟨y, m, d⟩
  | _ => none

/-- Modelled from the spec: the lower bounds of an entitlement against a
document ("bounds absent on the entry are treated as unbounded"; volume and
issue are "meaningful only when the corresponding year bound is known" and
compared "at the finest specificity available on both the entry and the
record"; "non-numeric values compare as unequal/unbounded rather than raising
an error").  The result is the reason of a mismatch, worded as in
TestCoveredBy. -/
def coveredFrom (doc : Document) (e : Entitlement) : Option String :=
  match doc.year with
  | none => none
  | some y =>
    if e.FromYear = 0 then none
    else if e.FromYear > y then
      some ("from-year " ++ toString e.FromYear ++ " > " ++ toString y)
    else if e.FromYear = y ∧ e.FromVolume ≠ 0 then
      match atoi doc.Volume with
      | none => none
      | some v =>
        if e.FromVolume > v then
          some ("from-volume " ++ toString e.FromVolume ++ " > " ++ toString v)
        else if e.FromVolume = v ∧ e.FromIssue ≠ 0 then
          match atoi doc.Issue with
          | none => none
          | some i =>
            if e.FromIssue > i then
              some ("from-issue " ++ toString e.FromIssue ++ " > " ++ toString i)
            else none
        else none
    else none

/-- Modelled from the spec: the upper bounds of an entitlement against a
document, the mirror image of the lower bounds. -/
def coveredTo (doc : Document) (e : Entitlement) : Option String :=
  match doc.year with
  | none => none
  | some y =>
    if e.ToYear = 0 then none
    else if e.ToYear < y then
      some ("to-year " ++ toString e.ToYear ++ " < " ++ toString y)
    else if e.ToYear = y ∧ e.ToVolume ≠ 0 then
      match atoi doc.Volume with
      | none => none
      | some v =>
        if e.ToVolume < v then
          some ("to-volume " ++ toString e.ToVolume ++ " < " ++ toString v)
        else if e.ToVolume = v ∧ e.ToIssue ≠ 0 then
          match atoi doc.Issue with
          | none => none
          | some i =>
            if e.ToIssue < i then
              some ("to-issue " ++ toString e.ToIssue ++ " < " ++ toString i)
            else none
        else none
    else none

/-- Modelled from the spec: the moving wall of an entitlement with a FromDelay
("a record newer than the embargo boundary is not covered even if its static
year/volume/issue would otherwise match"): the boundary is the current date
shifted by the delay. -/
def movingWall (clock : Clock) (doc : Document) (e : Entitlement) : Option String :=
  if e.FromDelay = "" then none
  else
    match clock.shift clock.now e.FromDelay with
    | .error m => some m
    | .ok boundary =>
      match doc.date with
      | none => none
      | some d => if d.after boundary then some "moving-wall violation" else none

/-- Modelled from the spec: the method `crossref.Document.CoveredBy`, which is
not under src: `none` is the nil error (the entitlement covers the document),
otherwise the reason why it does not, the static bounds first, then the moving
wall. -/
def Document.CoveredBy (clock : Clock) (doc : Document) (e : Entitlement) : Option String :=
  match coveredFrom doc e with
  | some m => some m
  | none =>
    match coveredTo doc e with
    | some m => some m
    | none => movingWall clock doc e

/-- A sample resolution of delays: "-nY" is n years back, same month and day. -/
def sampleShift (now : Date) (delay : String) : Except String Date :=
  match delay.data with
  | '-' :: cs =>
    match cs.reverse with
    | 'Y' :: ds =>
      match digitsValue ds.reverse with
      | some n => .ok ⟨now.year - n, now.month, now.day⟩
      | none => .error "invalid delay"
    | _ => .error "invalid delay"
  | _ => .error "invalid delay"

/-- A sample clock: 4 November 2026. -/
def sampleClock : Clock :=
  { now := ⟨2026, 11, 4⟩, shift := sampleShift }

/-- The table of TestCoveredBy: document, entitlement and expected error. -/
def coveredByTests : List (Document × Entitlement × Option String) :=
  [ ({}, {}, none),
    ({ Issued := [[2000]] }, {}, none),
    ({ Issued := [[2000, 1]] }, {}, none),
    ({ Issued := [[2000, 1, 1]] }, {}, none),
    ({ Issued := [[2000, 1, 1]] }, { FromYear := 1999, ToYear := 2001 }, none),
    ({}, { FromYear := 1999, ToYear := 2001 }, none),
    ({}, { FromYear := 1999 }, none),
    ({}, { ToYear := 2001 }, none),
    ({ Issued := [[2000, 1, 1]] }, { FromDelay := "-1Y" }, none),
    ({ Issued := [[2000, 1, 1]] }, { FromDelay := "-100Y" }, some "moving-wall violation"),
    ({ Issued := [[2000, 1, 1]] }, { FromYear := 2001 }, some "from-year 2001 > 2000"),
    ({ Issued := [[2000, 1, 1]] }, { ToYear := 1999 }, some "to-year 1999 < 2000"),
    ({ Volume := "1", Issued := [[2000, 1, 1]] }, { FromYear := 2000, FromVolume := 2 },
      some "from-volume 2 > 1"),
    ({ Volume := "2", Issued := [[2000, 1, 1]] }, { ToYear := 2000, ToVolume := 1 },
      some "to-volume 1 < 2"),
    ({ Volume := "1", Issue := "1", Issued := [[2000, 1, 1]] },
      { FromYear := 2000, FromVolume := 1, FromIssue := 2 }, some "from-issue 2 > 1"),
    ({ Volume := "1", Issue := "2", Issued := [[2000, 1, 1]] },
      { ToYear := 2000, ToVolume := 1, ToIssue := 1 }, some "to-issue 1 < 2") ]

/-! ## The order of sort.Strings -/

theorem leChars_refl (a : List Char) : leChars a a = true := by
  induction a with
  | nil => rfl
  | cons x xs ih => simp [leChars, ih]

theorem leChars_total (a b : List Char) : leChars a b = true ∨ leChars b a = true := by
  induction a generalizing b with
  | nil => left; rfl
  | cons x xs ih =>
    cases b with
    | nil => right; rfl
    | cons y ys =>
      simp only [leChars, Bool.or_eq_true, Bool.and_eq_true, decide_eq_true_eq, beq_iff_eq]
      rcases Nat.lt_trichotomy x.toNat y.toNat with h | h | h
      · left; left; exact h
      · rcases ih ys with h1 | h1
        · left; right; exact ⟨h, h1⟩
        · right; right; exact ⟨h.symm, h1⟩
      · right; left; exact h

theorem leChars_trans (a b c : List Char) (hab : leChars a b = true) (hbc : leChars b c = true) :
    leChars a c = true := by
  induction a generalizing b c with
  | nil => rfl
  | cons x xs ih =>
    cases b with
    | nil => simp [leChars] at hab
    | cons y ys =>
      cases c with
      | nil => simp [leChars] at hbc
      | cons z zs =>
        simp only [leChars, Bool.or_eq_true, Bool.and_eq_true, decide_eq_true_eq,
          beq_iff_eq] at hab hbc ⊢
        rcases hab with h1 | ⟨h1, h1r⟩
        · rcases hbc with h2 | ⟨h2, _⟩
          · left; omega
          · left; omega
        · rcases hbc with h2 | ⟨h2, h2r⟩
          · left; omega
          · right; exact ⟨by omega, ih ys zs h1r h2r⟩

theorem char_eq_of_toNat_eq (x y : Char) (h : x.toNat = y.toNat) : x = y := by
  apply Char.ext
  apply UInt32.ext
  exact h

theorem leChars_antisymm (a b : List Char) (hab : leChars a b = true) (hba : leChars b a = true) :
    a = b := by
  induction a generalizing b with
  | nil =>
    cases b with
    | nil => rfl
    | cons y ys => simp [leChars] at hba
  | cons x xs ih =>
    cases b with
    | nil => simp [leChars] at hab
    | cons y ys =>
      simp only [leChars, Bool.or_eq_true, Bool.and_eq_true, decide_eq_true_eq,
        beq_iff_eq] at hab hba
      rcases hab with h1 | ⟨h1, h1r⟩
      · rcases hba with h2 | ⟨h2, _⟩ <;> omega
      · rcases hba with h2 | ⟨_, h2r⟩
        · omega
        · rw [char_eq_of_toNat_eq x y h1, ih ys h1r h2r]

theorem strLe_isTotal : IsTotal String strLe :=
  ⟨fun a b => leChars_total a.data b.data⟩

theorem strLe_isTrans : IsTrans String strLe :=
  ⟨fun a b c hab hbc => leChars_trans a.data b.data c.data hab hbc⟩

theorem strLe_isAntisymm : IsAntisymm String strLe :=
  ⟨fun a b hab hba => String.ext (leChars_antisymm a.data b.data hab hba)⟩

theorem sortStrings_sorted (v : List String) : (sortStrings v).Sorted strLe :=
  haveI := strLe_isTotal
  haveI := strLe_isTrans
  List.sorted_insertionSort strLe v

theorem sortStrings_perm (v : List String) : (sortStrings v).Perm v :=
  List.perm_insertionSort strLe v

theorem sortStrings_eq_of_perm {u v : List String} (h : u.Perm v) :
    sortStrings u = sortStrings v :=
  haveI := strLe_isAntisymm
  List.eq_of_perm_of_sorted
    (((sortStrings_perm u).trans h).trans (sortStrings_perm v).symm)
    (sortStrings_sorted u) (sortStrings_sorted v)

theorem sortStrings_idem (v : List String) : sortStrings (sortStrings v) = sortStrings v :=
  List.Sorted.insertionSort_eq (sortStrings_sorted v)

theorem sortStrings_ne_nil {v : List String} (h : v ≠ []) : sortStrings v ≠ [] := by
  intro h0
  have hp := (sortStrings_perm v).length_eq
  rw [h0] at hp
  exact h (List.length_eq_zero.mp hp.symm)

theorem mem_sortStrings {v : List String} {x : String} : x ∈ sortStrings v ↔ x ∈ v :=
  (sortStrings_perm v).mem_iff

theorem cacheKey_order_free (d1 d2 : IntermediateSchema)
    (hsid : d1.SourceID = d2.SourceID)
    (hperm : d1.MegaCollections.Perm d2.MegaCollections) :
    (cacheKey d1).1 = (cacheKey d2).1 := by
  simp only [cacheKey]
  rw [hsid, sortStrings_eq_of_perm hperm]

/-- C5: cacheKey is order-independent.  Two records with the same SourceID
whose collection lists are permutations of one another get the same key, and
that key is SourceID, "@", and the collections in ascending order (a sorted
permutation of the record's collections) joined by "@". -/
theorem cacheKey_order_independent (d1 d2 : IntermediateSchema)
    (hsid : d1.SourceID = d2.SourceID)
    (hperm : d1.MegaCollections.Perm d2.MegaCollections) :
    (cacheKey d1).1 = (cacheKey d2).1 ∧
    (cacheKey d1).1 = d1.SourceID ++ "@" ++ stringsJoin (sortStrings d1.MegaCollections) "@" ∧
    (sortStrings d1.MegaCollections).Sorted strLe ∧
    (sortStrings d1.MegaCollections).Perm d1.MegaCollections := by
  exact ⟨cacheKey_order_free d1 d2 hsid hperm, rfl, sortStrings_sorted _, sortStrings_perm _⟩

/-! ## The holdings cache: lemmas -/

theorem populate_of_cached {ε : Type} (env : Env ε) (w : World) (c : HFCache ε)
    (hflink : String) (index : GoMap (List ε)) (h : c.entries.get? hflink = some index) :
    HFCache.populate env w c hflink = ⟨w, c, .ok ()⟩ := by
  simp [HFCache.populate, h]

theorem coversEntries_iff {ε : Type} (env : Env ε) (doc : IntermediateSchema) (es : List ε) :
    coversEntries env doc es = true ↔
      ∃ e ∈ es, env.covers e doc.RawDate doc.Volume doc.Issue = none := by
  induction es with
  | nil => simp [coversEntries]
  | cons e rest ih =>
    unfold coversEntries
    cases hc : env.covers e doc.RawDate doc.Volume doc.Issue with
    | none => simp [hc]
    | some m => simp [hc, ih]

theorem coversIssns_iff {ε : Type} (env : Env ε) (index : GoMap (List ε))
    (doc : IntermediateSchema) (issns : List String) :
    coversIssns env index doc issns = true ↔
      ∃ issn ∈ issns, ∃ e ∈ (index.get? issn).getD [],
        env.covers e doc.RawDate doc.Volume doc.Issue = none := by
  induction issns with
  | nil => simp [coversIssns]
  | cons i rest ih =>
    unfold coversIssns
    by_cases hc : coversEntries env doc ((index.get? i).getD []) = true
    · rw [if_pos hc]
      obtain ⟨e, he, hcov⟩ := (coversEntries_iff env doc _).mp hc
      exact ⟨fun _ => ⟨i, List.mem_cons_self _ _, e, he, hcov⟩, fun _ => rfl⟩
    · rw [if_neg hc, ih]
      constructor
      · rintro ⟨j, hj, e, he, hcov⟩
        exact ⟨j, List.mem_cons_of_mem _ hj, e, he, hcov⟩
      · rintro ⟨j, hj, e, he, hcov⟩
        rcases List.mem_cons.mp hj with h | h
        · subst h
          exact absurd ((coversEntries_iff env doc _).mpr ⟨e, he, hcov⟩) hc
        · exact ⟨j, h, e, he, hcov⟩

theorem osMkdirAll_stdout {ε : Type} (env : Env ε) (w : World) (p : String) :
    (osMkdirAll env w p).1.stdout = w.stdout ∧ (osMkdirAll env w p).1.queries = w.queries := by
  unfold osMkdirAll
  split <;> simp

theorem ensureDir_stdout {ε : Type} (env : Env ε) (w : World) (dir : String) :
    (ensureDir env w dir).1.stdout = w.stdout ∧ (ensureDir env w dir).1.queries = w.queries := by
  unfold ensureDir
  split
  · have hm := osMkdirAll_stdout env w dir
    split
    · next w1 e h1 => rw [h1] at hm; exact hm
    · next w1 h1 => rw [h1] at hm; exact hm
  · simp
  · simp
  · simp

theorem download_stdout {ε : Type} (env : Env ε) (w : World) (link filename : String) :
    (download env w link filename).1.stdout = w.stdout ∧
      (download env w link filename).1.queries = w.queries := by
  unfold download
  split
  · simp
  · split
    · simp
    · split <;> simp

theorem ensureFile_stdout {ε : Type} (env : Env ε) (w : World) (hflink filename : String) :
    (ensureFile env w hflink filename).1.stdout = w.stdout ∧
      (ensureFile env w hflink filename).1.queries = w.queries := by
  unfold ensureFile
  split
  · exact download_stdout env w hflink filename
  · simp

theorem populate_stdout {ε : Type} (env : Env ε) (w : World) (c : HFCache ε) (hflink : String) :
    (HFCache.populate env w c hflink).world.stdout = w.stdout ∧
      (HFCache.populate env w c hflink).world.queries = w.queries := by
  unfold HFCache.populate
  split
  · simp
  · simp only
    have hd := ensureDir_stdout env w (cacheDir env)
    split
    · next w1 e h1 => rw [h1] at hd; exact hd
    · next w1 h1 => rw [h1] at hd; exact hd
    · next w1 h1 =>
      rw [h1] at hd
      have hf := ensureFile_stdout env w1 hflink (cacheFilename env hflink)
      split
      · next w2 e h2 =>
        rw [h2] at hf
        exact ⟨hf.1.trans hd.1, hf.2.trans hd.2⟩
      · next w2 h2 =>
        rw [h2] at hf
        split
        · exact ⟨hf.1.trans hd.1, hf.2.trans hd.2⟩
        · exact ⟨hf.1.trans hd.1, hf.2.trans hd.2⟩

theorem Covers_eq {ε : Type} (env : Env ε) (w : World) (c : HFCache ε) (hflink : String)
    (doc : IntermediateSchema) :
    (HFCache.Covers env w c hflink doc).world = (HFCache.populate env w c hflink).world ∧
    (HFCache.Covers env w c hflink doc).cache = (HFCache.populate env w c hflink).cache ∧
    (HFCache.Covers env w c hflink doc).out =
      match (HFCache.populate env w c hflink).out with
      | .err e => .err e
      | .panic => .panic
      | .ok _ => .ok (coversIssns env
          (((HFCache.populate env w c hflink).cache.entries.get? hflink).getD []) doc
          (doc.ISSN ++ doc.EISSN)) := by
  unfold HFCache.Covers
  rcases hp : HFCache.populate env w c hflink with ⟨w1, c1, o1⟩
  cases o1 <;> simp

theorem Covers_stdout {ε : Type} (env : Env ε) (w : World) (c : HFCache ε) (hflink : String)
    (doc : IntermediateSchema) :
    (HFCache.Covers env w c hflink doc).world.stdout = w.stdout ∧
      (HFCache.Covers env w c hflink doc).world.queries = w.queries := by
  rw [(Covers_eq env w c hflink doc).1]
  exact populate_stdout env w c hflink

theorem Covers_any_of_lemma {ε : Type} (env : Env ε) (w : World) (c : HFCache ε)
    (hflink : String) (doc : IntermediateSchema) (index : GoMap (List ε))
    (hpop : c.entries.get? hflink = some index) :
    ∃ b : Bool, HFCache.Covers env w c hflink doc = ⟨w, c, .ok b⟩ ∧
      (b = true ↔ ∃ issn ∈ doc.ISSN ++ doc.EISSN, ∃ e ∈ (index.get? issn).getD [],
        env.covers e doc.RawDate doc.Volume doc.Issue = none) := by
  refine ⟨coversIssns env index doc (doc.ISSN ++ doc.EISSN), ?_, coversIssns_iff env index doc _⟩
  simp [HFCache.Covers, populate_of_cached env w c hflink index hpop, hpop]

/-- C4: Covers has any-of-N semantics.  For a holdings reference that is
populated (present in the entries map) and every record, Covers returns without
error and without touching world or cache, and its answer is true exactly when
some serial number of the record's ISSN list followed by its EISSN list has an
entry in the reference's index that covers the record's date, volume and
issue; otherwise the answer is false. -/
theorem Covers_any_of_n {ε : Type} (env : Env ε) (w : World) (c : HFCache ε) (hflink : String)
    (doc : IntermediateSchema) (index : GoMap (List ε))
    (hpop : c.entries.get? hflink = some index) :
    ∃ b : Bool, HFCache.Covers env w c hflink doc = ⟨w, c, .ok b⟩ ∧
      (b = true ↔ ∃ issn ∈ doc.ISSN ++ doc.EISSN, ∃ e ∈ (index.get? issn).getD [],
        env.covers e doc.RawDate doc.Volume doc.Issue = none) ∧
      (b = false ↔ ∀ issn ∈ doc.ISSN ++ doc.EISSN, ∀ e ∈ (index.get? issn).getD [],
        env.covers e doc.RawDate doc.Volume doc.Issue ≠ none) := by
  refine ⟨coversIssns env index doc (doc.ISSN ++ doc.EISSN), ?_, coversIssns_iff env index doc _, ?_⟩
  · simp [HFCache.Covers, populate_of_cached env w c hflink index hpop, hpop]
  · rw [← Bool.not_eq_true, coversIssns_iff]
    constructor
    · intro h issn hi e he hc
      exact h ⟨issn, hi, e, he, hc⟩
    · rintro h ⟨issn, hi, e, he, hc⟩
      exact h issn hi e he hc


/-! ## The labeler: lemmas -/

theorem coversEntries_congr {ε : Type} (env : Env ε) (d1 d2 : IntermediateSchema)
    (hd : d1.RawDate = d2.RawDate) (hv : d1.Volume = d2.Volume) (hi : d1.Issue = d2.Issue)
    (es : List ε) : coversEntries env d1 es = coversEntries env d2 es := by
  induction es with
  | nil => rfl
  | cons e rest ih => simp only [coversEntries, hd, hv, hi, ih]

theorem coversIssns_congr {ε : Type} (env : Env ε) (index : GoMap (List ε))
    (d1 d2 : IntermediateSchema)
    (hd : d1.RawDate = d2.RawDate) (hv : d1.Volume = d2.Volume) (hi : d1.Issue = d2.Issue)
    (issns : List String) : coversIssns env index d1 issns = coversIssns env index d2 issns := by
  induction issns with
  | nil => rfl
  | cons i rest ih => simp only [coversIssns, coversEntries_congr env d1 d2 hd hv hi, ih]

theorem Covers_cacheKey_doc {ε : Type} (env : Env ε) (w : World) (c : HFCache ε)
    (hflink : String) (doc : IntermediateSchema) :
    HFCache.Covers env w c hflink (cacheKey doc).2 = HFCache.Covers env w c hflink doc := by
  unfold HFCache.Covers
  have h : ∀ index, coversIssns env index (cacheKey doc).2
      ((cacheKey doc).2.ISSN ++ (cacheKey doc).2.EISSN) =
      coversIssns env index doc (doc.ISSN ++ doc.EISSN) :=
    fun index => coversIssns_congr env index (cacheKey doc).2 doc rfl rfl rfl _
  simp only [h]

theorem matchingRows_doc {ε : Type} (w : World) (l : Labeler ε) (doc : IntermediateSchema) :
    (l.matchingRows w doc).doc = (cacheKey doc).2 := by
  unfold Labeler.matchingRows
  simp only
  repeat' split
  all_goals rfl

theorem matchingRows_stdout {ε : Type} (w : World) (l : Labeler ε) (doc : IntermediateSchema) :
    (l.matchingRows w doc).world.stdout = w.stdout := by
  unfold Labeler.matchingRows
  simp only
  repeat' split
  all_goals rfl

theorem labelRows_stdout {ε : Type} (env : Env ε) (doc : IntermediateSchema) (rows : List ConfigRow) :
    ∀ (w : World) (c : HFCache ε) (labels : List String),
      (labelRows env doc w c labels rows).world.stdout = w.stdout := by
  induction rows with
  | nil => intro w c labels; rfl
  | cons row rest ih =>
    intro w c labels
    simp only [labelRows]
    split_ifs
    · rfl
    · have hs := (Covers_stdout env w c row.LinkToHoldingsFile doc).1
      split
      · next w1 c1 e h1 => rw [h1] at hs; exact hs
      · next w1 c1 h1 => rw [h1] at hs; exact hs
      · next w1 c1 ok h1 =>
        rw [h1] at hs
        rw [ih]
        exact hs
    · exact ih _ _ _
    · exact ih _ _ _
    · rfl

theorem labelRows_append {ε : Type} (env : Env ε) (doc : IntermediateSchema)
    (pre rest : List ConfigRow) :
    ∀ (w : World) (c : HFCache ε) (labels : List String),
      labelRows env doc w c labels (pre ++ rest) =
        match labelRows env doc w c labels pre with
        | ⟨w1, c1, .ok labels1⟩ => labelRows env doc w1 c1 labels1 rest
        | ⟨w1, c1, .err e⟩ => ⟨w1, c1, .err e⟩
        | ⟨w1, c1, .panic⟩ => ⟨w1, c1, .panic⟩ := by
  induction pre with
  | nil => intro w c labels; simp [labelRows]
  | cons row tl ih =>
    intro w c labels
    simp only [List.cons_append, labelRows]
    split_ifs
    · rfl
    · rcases hc : HFCache.Covers env w c row.LinkToHoldingsFile doc with ⟨w1, c1, o⟩
      cases o with
      | ok b => exact ih _ _ _
      | err e => rfl
      | panic => rfl
    · exact ih _ _ _
    · exact ih _ _ _
    · rfl

theorem Label_eq {ε : Type} (env : Env ε) (w : World) (l : Labeler ε) (doc : IntermediateSchema)
    (rows : List ConfigRow) (hopen : (l.openDb env).2 = none)
    (hrows : ((l.openDb env).1.matchingRows w doc).out = .ok rows) :
    l.Label env w doc =
      match labelRows env (cacheKey doc).2 ((l.openDb env).1.matchingRows w doc).world
          ((l.openDb env).1.matchingRows w doc).labeler.hfcache [] rows with
      | ⟨w2, c2, .err e⟩ =>
        ⟨w2, { ((l.openDb env).1.matchingRows w doc).labeler with hfcache := c2 },
          (cacheKey doc).2, .err e⟩
      | ⟨w2, c2, .panic⟩ =>
        ⟨w2, { ((l.openDb env).1.matchingRows w doc).labeler with hfcache := c2 },
          (cacheKey doc).2, .panic⟩
      | ⟨w2, c2, .ok labels⟩ =>
        ⟨{ w2 with stdout := w2.stdout ++ [labelLine doc (sortStrings labels)] },
          { ((l.openDb env).1.matchingRows w doc).labeler with hfcache := c2 },
          (cacheKey doc).2, .ok ()⟩ := by
  have hdoc := matchingRows_doc w (l.openDb env).1 doc
  unfold Labeler.Label
  rcases ho : l.openDb env with ⟨l0, oe⟩
  rw [ho] at hopen hrows hdoc
  simp only at hopen hrows hdoc
  subst hopen
  rcases hm : l0.matchingRows w doc with ⟨w1, l1, doc1, o⟩
  rw [hm] at hrows hdoc
  simp only at hrows hdoc
  subst hrows hdoc
  simp only [hm, labelLine, cacheKey]


theorem labelRows_plain_step {ε : Type} (env : Env ε) (doc : IntermediateSchema) (w : World)
    (c : HFCache ε) (labels : List String) (row : ConfigRow) (rest : List ConfigRow)
    (hno : row.EvaluateHoldingsFileForLibrary = "no") (hlink : row.LinkToHoldingsFile = "") :
    labelRows env doc w c labels (row :: rest) =
      labelRows env doc w c (labels.insert row.ISIL) rest := by
  simp [labelRows, hno, hlink]

theorem labelRows_reject_step {ε : Type} (env : Env ε) (doc : IntermediateSchema) (w : World)
    (c : HFCache ε) (labels : List String) (row : ConfigRow) (rest : List ConfigRow)
    (hno : row.EvaluateHoldingsFileForLibrary = "no") (hlink : row.LinkToHoldingsFile ≠ "") :
    labelRows env doc w c labels (row :: rest) = ⟨w, c, .err (.holdingNotEvaluated row)⟩ := by
  simp [labelRows, hno, hlink]

theorem labelRows_holdings_step {ε : Type} (env : Env ε) (doc : IntermediateSchema) (w : World)
    (c : HFCache ε) (labels : List String) (row : ConfigRow) (rest : List ConfigRow)
    (hyes : row.EvaluateHoldingsFileForLibrary = "yes") (hlink : row.LinkToHoldingsFile ≠ "") :
    labelRows env doc w c labels (row :: rest) =
      match HFCache.Covers env w c row.LinkToHoldingsFile doc with
      | ⟨w1, c1, .err e⟩ => ⟨w1, c1, .err e⟩
      | ⟨w1, c1, .panic⟩ => ⟨w1, c1, .panic⟩
      | ⟨w1, c1, .ok ok⟩ =>
        labelRows env doc w1 c1 (if ok then labels.insert row.ISIL else labels) rest := by
  simp [labelRows, hyes, hlink]

theorem labelRows_mem {ε : Type} (env : Env ε) (doc : IntermediateSchema) (rows : List ConfigRow) :
    ∀ (w : World) (c : HFCache ε) (labels out : List String),
      (labelRows env doc w c labels rows).out = .ok out →
      (∀ x ∈ labels, x ∈ out) ∧
      ∀ row ∈ rows, row.EvaluateHoldingsFileForLibrary = "no" → row.LinkToHoldingsFile = "" →
        row.ISIL ∈ out := by
  induction rows with
  | nil =>
    intro w c labels out h
    simp only [labelRows, Outcome.ok.injEq] at h
    subst h
    exact ⟨fun x hx => hx, fun row hrow => absurd hrow (List.not_mem_nil _)⟩
  | cons r rest ih =>
    intro w c labels out h
    by_cases h1 : r.EvaluateHoldingsFileForLibrary = "no" ∧ r.LinkToHoldingsFile ≠ ""
    · rw [labelRows_reject_step env doc w c labels r rest h1.1 h1.2] at h
      simp at h
    by_cases h2 : r.EvaluateHoldingsFileForLibrary = "yes" ∧ r.LinkToHoldingsFile ≠ ""
    · rw [labelRows_holdings_step env doc w c labels r rest h2.1 h2.2] at h
      rcases hc : HFCache.Covers env w c r.LinkToHoldingsFile doc with ⟨w1, c1, o⟩
      rw [hc] at h
      cases o with
      | err e => simp at h
      | panic => simp at h
      | ok b =>
        simp only at h
        obtain ⟨ha, hb⟩ := ih _ _ _ _ h
        refine ⟨fun x hx => ha x ?_, ?_⟩
        · cases b
          · simpa using hx
          · simp only [if_true]
            exact List.mem_insert_of_mem hx
        · intro row hrow hno hlink
          rcases List.mem_cons.mp hrow with heq | hin
          · subst heq
            rw [hno] at h2
            exact absurd h2.1 (by decide)
          · exact hb row hin hno hlink
    by_cases h3 : r.EvaluateHoldingsFileForLibrary = "no"
    · have hl : r.LinkToHoldingsFile = "" := by
        by_contra hne
        exact h1 ⟨h3, hne⟩
      rw [labelRows_plain_step env doc w c labels r rest h3 hl] at h
      obtain ⟨ha, hb⟩ := ih _ _ _ _ h
      refine ⟨fun x hx => ha x (List.mem_insert_of_mem hx), ?_⟩
      intro row hrow hno hlink
      rcases List.mem_cons.mp hrow with heq | hin
      · subst heq
        exact ha _ (List.mem_insert_self _ _)
      · exact hb row hin hno hlink
    by_cases h4 : r.ContentFileURI ≠ ""
    · simp only [labelRows, h1, h2, h3, h4, if_false, if_true, ne_eq, not_false_eq_true] at h
      obtain ⟨ha, hb⟩ := ih _ _ _ _ h
      refine ⟨ha, ?_⟩
      intro row hrow hno hlink
      rcases List.mem_cons.mp hrow with heq | hin
      · subst heq
        exact absurd hno h3
      · exact hb row hin hno hlink
    · simp only [labelRows, h1, h2, h3, h4, if_false] at h
      simp at h

theorem labelRows_plain {ε : Type} (env : Env ε) (doc : IntermediateSchema) (rows : List ConfigRow)
    (hall : ∀ r ∈ rows, r.EvaluateHoldingsFileForLibrary = "no" ∧ r.LinkToHoldingsFile = "") :
    ∀ (w : World) (c : HFCache ε) (labels : List String),
      ∃ out, labelRows env doc w c labels rows = ⟨w, c, .ok out⟩ := by
  induction rows with
  | nil => intro w c labels; exact ⟨labels, rfl⟩
  | cons r rest ih =>
    intro w c labels
    obtain ⟨hno, hlink⟩ := hall r (List.mem_cons_self _ _)
    rw [labelRows_plain_step env doc w c labels r rest hno hlink]
    exact ih (fun r' hr' => hall r' (List.mem_cons_of_mem _ hr')) w c _

/-- C9: a record that matches zero rules is not an error.  When matchingRows
returns the empty list, Label returns nil and prints the line of the record
with an empty label list: the ID, a TAB, nothing, a newline. -/
theorem Label_zero_rules {ε : Type} (env : Env ε) (w : World) (l : Labeler ε)
    (doc : IntermediateSchema)
    (hopen : (l.openDb env).2 = none)
    (hrows : ((l.openDb env).1.matchingRows w doc).out = .ok []) :
    (l.Label env w doc).out = .ok () ∧
    (l.Label env w doc).world.stdout = w.stdout ++ [doc.ID ++ "\t" ++ "" ++ "\n"] := by
  rw [Label_eq env w l doc [] hopen hrows]
  simp [labelRows, matchingRows_stdout, labelLine, sortStrings, stringsJoin, String.intercalate]

/-- C3: a record whose only matching rule evaluates a holdings file.  With
the rule list consisting of one rule with EvaluateHoldingsFileForLibrary "yes"
and a non-empty holdings link, and Covers answering `b` for the link and the
record, Label returns nil and prints the record's line with the rule's ISIL
when `b` is true and with an empty label list when `b` is false. -/
theorem Label_single_holdings_rule {ε : Type} (env : Env ε) (w : World) (l : Labeler ε)
    (doc : IntermediateSchema) (row : ConfigRow) (b : Bool)
    (hopen : (l.openDb env).2 = none)
    (hrows : ((l.openDb env).1.matchingRows w doc).out = .ok [row])
    (hyes : row.EvaluateHoldingsFileForLibrary = "yes")
    (hlink : row.LinkToHoldingsFile ≠ "")
    (hcov : (HFCache.Covers env ((l.openDb env).1.matchingRows w doc).world
      ((l.openDb env).1.matchingRows w doc).labeler.hfcache row.LinkToHoldingsFile doc).out
        = .ok b) :
    (l.Label env w doc).out = .ok () ∧
    (l.Label env w doc).world.stdout =
      w.stdout ++ [labelLine doc (if b then [row.ISIL] else [])] := by
  rw [Label_eq env w l doc [row] hopen hrows, labelRows_holdings_step _ _ _ _ _ _ _ hyes hlink,
    Covers_cacheKey_doc]
  have hs := (Covers_stdout env ((l.openDb env).1.matchingRows w doc).world
      ((l.openDb env).1.matchingRows w doc).labeler.hfcache row.LinkToHoldingsFile doc).1
  rw [matchingRows_stdout] at hs
  rcases hc : HFCache.Covers env ((l.openDb env).1.matchingRows w doc).world
      ((l.openDb env).1.matchingRows w doc).labeler.hfcache row.LinkToHoldingsFile doc
    with ⟨w2, c2, o⟩
  rw [hc] at hcov hs
  simp only at hcov hs
  subst hcov
  cases b <;> simp [labelRows, hs, sortStrings]


/-- C2: a rule that attaches without a holdings file.  For a rule of the
matched list with EvaluateHoldingsFileForLibrary "no" and an empty holdings
link: whenever Label prints the record's line, its label list contains the
rule's ISIL; the loop step of the rule inserts the ISIL and goes on with the
same world and holdings cache for every document (no holdings lookup, no use of
ISSN, date, volume or issue); and Label does print a line when every matched
rule is of this kind. -/
theorem Label_plain_rule {ε : Type} (env : Env ε) (w : World) (l : Labeler ε)
    (doc : IntermediateSchema) (rows : List ConfigRow) (row : ConfigRow)
    (hopen : (l.openDb env).2 = none)
    (hrows : ((l.openDb env).1.matchingRows w doc).out = .ok rows)
    (hmem : row ∈ rows)
    (hno : row.EvaluateHoldingsFileForLibrary = "no")
    (hlink : row.LinkToHoldingsFile = "") :
    ((l.Label env w doc).out = .ok () →
      ∃ keys, (l.Label env w doc).world.stdout = w.stdout ++ [labelLine doc keys] ∧
        row.ISIL ∈ keys) ∧
    (∀ (d : IntermediateSchema) (w1 : World) (c1 : HFCache ε) (labels : List String)
      (rest : List ConfigRow),
      labelRows env d w1 c1 labels (row :: rest) =
        labelRows env d w1 c1 (labels.insert row.ISIL) rest) ∧
    ((∀ r ∈ rows, r.EvaluateHoldingsFileForLibrary = "no" ∧ r.LinkToHoldingsFile = "") →
      (l.Label env w doc).out = .ok ()) := by
  have hst := labelRows_stdout env (cacheKey doc).2 rows
    ((l.openDb env).1.matchingRows w doc).world
    ((l.openDb env).1.matchingRows w doc).labeler.hfcache []
  have hm := labelRows_mem env (cacheKey doc).2 rows
    ((l.openDb env).1.matchingRows w doc).world
    ((l.openDb env).1.matchingRows w doc).labeler.hfcache []
  rw [matchingRows_stdout] at hst
  refine ⟨?_, fun d w1 c1 labels rest => labelRows_plain_step env d w1 c1 labels row rest hno hlink,
    ?_⟩
  · rw [Label_eq env w l doc rows hopen hrows]
    rcases hl : labelRows env (cacheKey doc).2 ((l.openDb env).1.matchingRows w doc).world
      ((l.openDb env).1.matchingRows w doc).labeler.hfcache [] rows with ⟨w2, c2, o⟩
    rw [hl] at hst hm
    cases o with
    | err e => simp
    | panic => simp
    | ok labels =>
      intro _
      simp only at hst
      refine ⟨sortStrings labels, by simp [hst], ?_⟩
      exact mem_sortStrings.mpr ((hm labels rfl).2 row hmem hno hlink)
  · intro hall
    rw [Label_eq env w l doc rows hopen hrows]
    obtain ⟨out, hout⟩ := labelRows_plain env (cacheKey doc).2 rows hall
      ((l.openDb env).1.matchingRows w doc).world
      ((l.openDb env).1.matchingRows w doc).labeler.hfcache []
    rw [hout]

/-- C1, amended: a rule with a holdings file that is not to be evaluated makes
Label fail.  When the matched rule list contains a rule with
EvaluateHoldingsFileForLibrary "no" and a non-empty holdings link, Label does
not return nil and prints no line; it returns the configuration error naming
that rule whenever the rules before it in the list were processed without a
failure. -/
theorem Label_rejects_unevaluated_holdings {ε : Type} (env : Env ε) (w : World) (l : Labeler ε)
    (doc : IntermediateSchema) (pre post : List ConfigRow) (row : ConfigRow)
    (hopen : (l.openDb env).2 = none)
    (hrows : ((l.openDb env).1.matchingRows w doc).out = .ok (pre ++ row :: post))
    (hno : row.EvaluateHoldingsFileForLibrary = "no")
    (hlink : row.LinkToHoldingsFile ≠ "") :
    (l.Label env w doc).out ≠ .ok () ∧
    (l.Label env w doc).world.stdout = w.stdout ∧
    (∀ labels, (labelRows env (cacheKey doc).2 ((l.openDb env).1.matchingRows w doc).world
        ((l.openDb env).1.matchingRows w doc).labeler.hfcache [] pre).out = .ok labels →
      (l.Label env w doc).out = .err (.holdingNotEvaluated row)) := by
  have hst := labelRows_stdout env (cacheKey doc).2 pre
    ((l.openDb env).1.matchingRows w doc).world
    ((l.openDb env).1.matchingRows w doc).labeler.hfcache []
  rw [matchingRows_stdout] at hst
  rw [Label_eq env w l doc _ hopen hrows, labelRows_append]
  rcases hl : labelRows env (cacheKey doc).2 ((l.openDb env).1.matchingRows w doc).world
    ((l.openDb env).1.matchingRows w doc).labeler.hfcache [] pre with ⟨w2, c2, o⟩
  rw [hl] at hst
  simp only at hst
  cases o with
  | err e => simp [hst]
  | panic => simp [hst]
  | ok labels =>
    simp only [labelRows_reject_step env _ w2 c2 labels row post hno hlink]
    simp [hst]

/-- C10, amended: a failure of populate is fatal.  Whenever populate returns an
error for a reference, Covers returns that error for it.  And when the matched
rule list of a record contains a rule with EvaluateHoldingsFileForLibrary "yes"
and a non-empty link for which populate returns an error, Label does not
return nil and prints no line: it returns the error of populate when the rules
before that rule in the list were processed without a failure, and when one of
them failed, it returns the failure of that earlier rule, its error or its
panic. -/
theorem Label_populate_failure_fatal {ε : Type} (env : Env ε) (w : World) (l : Labeler ε)
    (doc : IntermediateSchema) (pre post : List ConfigRow) (row : ConfigRow) (e : Err)
    (hopen : (l.openDb env).2 = none)
    (hrows : ((l.openDb env).1.matchingRows w doc).out = .ok (pre ++ row :: post))
    (hyes : row.EvaluateHoldingsFileForLibrary = "yes")
    (hlink : row.LinkToHoldingsFile ≠ "")
    (hpop : (HFCache.populate env
        (labelRows env (cacheKey doc).2 ((l.openDb env).1.matchingRows w doc).world
          ((l.openDb env).1.matchingRows w doc).labeler.hfcache [] pre).world
        (labelRows env (cacheKey doc).2 ((l.openDb env).1.matchingRows w doc).world
          ((l.openDb env).1.matchingRows w doc).labeler.hfcache [] pre).cache
        row.LinkToHoldingsFile).out = .err e) :
    (∀ (w1 : World) (c1 : HFCache ε) (k : String) (d : IntermediateSchema) (e1 : Err),
      (HFCache.populate env w1 c1 k).out = .err e1 →
        (HFCache.Covers env w1 c1 k d).out = .err e1) ∧
    (l.Label env w doc).out ≠ .ok () ∧
    (l.Label env w doc).world.stdout = w.stdout ∧
    (∀ labels, (labelRows env (cacheKey doc).2 ((l.openDb env).1.matchingRows w doc).world
        ((l.openDb env).1.matchingRows w doc).labeler.hfcache [] pre).out = .ok labels →
      (l.Label env w doc).out = .err e) ∧
    (∀ e0, (labelRows env (cacheKey doc).2 ((l.openDb env).1.matchingRows w doc).world
        ((l.openDb env).1.matchingRows w doc).labeler.hfcache [] pre).out = .err e0 →
      (l.Label env w doc).out = .err e0) ∧
    ((labelRows env (cacheKey doc).2 ((l.openDb env).1.matchingRows w doc).world
        ((l.openDb env).1.matchingRows w doc).labeler.hfcache [] pre).out = .panic →
      (l.Label env w doc).out = .panic) := by
  have hcov : ∀ (w1 : World) (c1 : HFCache ε) (k : String) (d : IntermediateSchema) (e1 : Err),
      (HFCache.populate env w1 c1 k).out = .err e1 →
        (HFCache.Covers env w1 c1 k d).out = .err e1 := by
    intro w1 c1 k d e1 h
    rw [(Covers_eq env w1 c1 k d).2.2, h]
  refine ⟨hcov, ?_⟩
  have hst := labelRows_stdout env (cacheKey doc).2 pre
    ((l.openDb env).1.matchingRows w doc).world
    ((l.openDb env).1.matchingRows w doc).labeler.hfcache []
  rw [matchingRows_stdout] at hst
  rw [Label_eq env w l doc _ hopen hrows, labelRows_append]
  rcases hl : labelRows env (cacheKey doc).2 ((l.openDb env).1.matchingRows w doc).world
    ((l.openDb env).1.matchingRows w doc).labeler.hfcache [] pre with ⟨w2, c2, o⟩
  rw [hl] at hst hpop
  simp only at hst hpop
  cases o with
  | err e0 => simp [hst]
  | panic => simp [hst]
  | ok labels =>
    have hc := hcov w2 c2 row.LinkToHoldingsFile (cacheKey doc).2 e hpop
    have hcs := (Covers_stdout env w2 c2 row.LinkToHoldingsFile (cacheKey doc).2).1
    simp only [labelRows_holdings_step env _ w2 c2 labels row post hyes hlink]
    rcases hcv : HFCache.Covers env w2 c2 row.LinkToHoldingsFile (cacheKey doc).2 with ⟨w3, c3, o3⟩
    rw [hcv] at hc hcs
    simp only at hc hcs
    subst hc
    simp [hcs, hst]


/-! ## The rule-match cache: lemmas -/

theorem scanRows_ok (s : Store) (rs : List AmslRow) (h : ∀ r ∈ rs, s.scanErr r = none) :
    ∀ acc : List ConfigRow, scanRows s acc rs = .ok (acc ++ rs.map scanRow) := by
  induction rs with
  | nil => intro acc; simp [scanRows]
  | cons r rest ih =>
    intro acc
    simp only [scanRows, h r (List.mem_cons_self _ _)]
    rw [ih (fun r' hr' => h r' (List.mem_cons_of_mem _ hr'))]
    simp

theorem sqlxIn_of_ne_nil {v : List String} (h : v ≠ []) : sqlxIn v = none := by
  cases v with
  | nil => exact absurd rfl h
  | cons a as => rfl

theorem selects_sortStrings (sid : String) (colls : List String) (r : AmslRow) :
    selects sid (sortStrings colls) r =
      decide (r.sid = sid ∧ (r.mc ∈ colls ∨ r.tcid ∈ colls)) := by
  simp only [selects, List.contains, List.elem_eq_mem, mem_sortStrings]
  by_cases h1 : r.sid = sid <;> by_cases h2 : r.mc ∈ colls <;> by_cases h3 : r.tcid ∈ colls <;>
    simp [h1, h2, h3]

theorem matchingRows_hit {ε : Type} (w : World) (l : Labeler ε) (doc : IntermediateSchema)
    (v : List ConfigRow) (h : l.cache.get? (cacheKey doc).1 = some v) :
    l.matchingRows w doc = ⟨w, l, (cacheKey doc).2, .ok v⟩ := by
  simp only [Labeler.matchingRows, h]

theorem matchingRows_miss {ε : Type} (w : World) (l : Labeler ε) (doc : IntermediateSchema)
    (hmiss : l.cache.get? (cacheKey doc).1 = none) (hne : doc.MegaCollections ≠ []) :
    l.matchingRows w doc =
      match l.db with
      | none => ⟨w, l, (cacheKey doc).2, .panic⟩
      | some s =>
        let w1 := { w with
          queries := w.queries ++ [(doc.SourceID, sortStrings doc.MegaCollections)] }
        match s.queryErr doc.SourceID (sortStrings doc.MegaCollections) with
        | some e => ⟨w1, l, (cacheKey doc).2, .err (.lib e)⟩
        | none =>
          match scanRows s []
              (deliveredRows s doc.SourceID (sortStrings doc.MegaCollections)) with
          | .error e => ⟨w1, l, (cacheKey doc).2, .err e⟩
          | .ok result =>
            ⟨w1, { l with cache := l.cache.set (cacheKey doc).1 result }, (cacheKey doc).2,
              .ok result⟩ := by
  have hs : sortStrings doc.MegaCollections ≠ [] := sortStrings_ne_nil hne
  have hlen : ¬ ((cacheKey doc).2.MegaCollections.length = 0) := by
    intro h0
    exact hs (List.length_eq_zero.mp h0)
  have hin : sqlxIn (cacheKey doc).2.MegaCollections = none := sqlxIn_of_ne_nil hs
  simp only [Labeler.matchingRows, hmiss, hlen, if_false, hin]
  rfl

theorem GoMap.get?_set_self {α : Type} (m : GoMap α) (k : String) (v : α) :
    (m.set k v).get? k = some v := by
  simp [GoMap.get?, GoMap.set, List.lookup]

/-- When the driver reports no failure at all, neither of the query, nor of a
scan, nor while the result is stepped through, a cache miss for a record with
a non-empty collection list returns the rows of the rule store whose sid equals
the record's SourceID and whose mega-collection or technical collection ID is
among the record's collections, in store order. -/
theorem matchingRows_miss_without_failure {ε : Type} (w : World) (l : Labeler ε)
    (doc : IntermediateSchema) (s : Store)
    (hmiss : l.cache.get? (cacheKey doc).1 = none)
    (hne : doc.MegaCollections ≠ [])
    (hdb : l.db = some s)
    (hquery : s.queryErr doc.SourceID (sortStrings doc.MegaCollections) = none)
    (hnext : s.nextFailsAfter doc.SourceID (sortStrings doc.MegaCollections) = none)
    (hscan : ∀ r ∈ s.rows, r.sid = doc.SourceID →
      (r.mc ∈ doc.MegaCollections ∨ r.tcid ∈ doc.MegaCollections) → s.scanErr r = none) :
    (l.matchingRows w doc).out =
      .ok ((s.rows.filter (fun r => decide (r.sid = doc.SourceID ∧
        (r.mc ∈ doc.MegaCollections ∨ r.tcid ∈ doc.MegaCollections)))).map scanRow) ∧
    (∀ rows, (l.matchingRows w doc).out = .ok rows →
      ∀ cr, cr ∈ rows ↔ ∃ r ∈ s.rows, r.sid = doc.SourceID ∧
        (r.mc ∈ doc.MegaCollections ∨ r.tcid ∈ doc.MegaCollections) ∧ cr = scanRow r) := by
  have hsel : selects doc.SourceID (sortStrings doc.MegaCollections) =
      fun r => decide (r.sid = doc.SourceID ∧
        (r.mc ∈ doc.MegaCollections ∨ r.tcid ∈ doc.MegaCollections)) :=
    funext (selects_sortStrings doc.SourceID doc.MegaCollections)
  have hok := scanRows_ok s
    (s.rows.filter (fun r => decide (r.sid = doc.SourceID ∧
      (r.mc ∈ doc.MegaCollections ∨ r.tcid ∈ doc.MegaCollections))))
    (by
      intro r hr
      rw [List.mem_filter, decide_eq_true_eq] at hr
      exact hscan r hr.1 hr.2.1 hr.2.2) []
  have hout : (l.matchingRows w doc).out =
      .ok ((s.rows.filter (fun r => decide (r.sid = doc.SourceID ∧
        (r.mc ∈ doc.MegaCollections ∨ r.tcid ∈ doc.MegaCollections)))).map scanRow) := by
    rw [matchingRows_miss w l doc hmiss hne, hdb]
    simp only [hquery, deliveredRows, hnext, hsel, hok, List.nil_append]
  refine ⟨hout, ?_⟩
  intro rows hrows cr
  rw [hout, Outcome.ok.injEq] at hrows
  subst hrows
  simp only [List.mem_map, List.mem_filter, decide_eq_true_eq]
  constructor
  · rintro ⟨r, ⟨hr, hsid, hcol⟩, rfl⟩
    exact ⟨r, hr, hsid, hcol, rfl⟩
  · rintro ⟨r, hr, hsid, hcol, rfl⟩
    exact ⟨r, ⟨hr, hsid, hcol⟩, rfl⟩

/-- C6: the second of two calls for the same source and collections is served
from the cache.  For two records with the same SourceID whose non-empty
collection lists are permutations of one another, once matchingRows has
returned a rule list for the first, the call for the second on the resulting
labeler returns that same list and leaves world and labeler as they are (no
store query); when the first call was not itself served from the cache, it
logged exactly one query, so the two calls together log exactly one, and when
it was, neither call logs a query. -/
theorem matchingRows_second_call_cached {ε : Type} (w : World) (l : Labeler ε)
    (d1 d2 : IntermediateSchema) (rows : List ConfigRow)
    (hsid : d1.SourceID = d2.SourceID)
    (hperm : d1.MegaCollections.Perm d2.MegaCollections)
    (hne : d1.MegaCollections ≠ [])
    (hfirst : (l.matchingRows w d1).out = .ok rows) :
    ((l.matchingRows w d1).labeler.matchingRows (l.matchingRows w d1).world d2).out = .ok rows ∧
    ((l.matchingRows w d1).labeler.matchingRows (l.matchingRows w d1).world d2).world =
      (l.matchingRows w d1).world ∧
    ((l.matchingRows w d1).labeler.matchingRows (l.matchingRows w d1).world d2).labeler.cache =
      (l.matchingRows w d1).labeler.cache ∧
    (l.cache.get? (cacheKey d1).1 = none →
      ((l.matchingRows w d1).labeler.matchingRows (l.matchingRows w d1).world d2).world.queries =
        w.queries ++ [(d1.SourceID, sortStrings d1.MegaCollections)]) ∧
    (l.cache.get? (cacheKey d1).1 ≠ none →
      ((l.matchingRows w d1).labeler.matchingRows (l.matchingRows w d1).world d2).world.queries =
        w.queries) := by
  have hkey : (cacheKey d2).1 = (cacheKey d1).1 :=
    ((cacheKey_order_free d1 d2 hsid hperm)).symm
  have hcached : (l.matchingRows w d1).labeler.cache.get? (cacheKey d2).1 = some rows ∧
      (l.cache.get? (cacheKey d1).1 = none → (l.matchingRows w d1).world.queries =
        w.queries ++ [(d1.SourceID, sortStrings d1.MegaCollections)]) ∧
      (l.cache.get? (cacheKey d1).1 ≠ none → (l.matchingRows w d1).world.queries =
        w.queries) := by
    rw [hkey]
    cases hc : l.cache.get? (cacheKey d1).1 with
    | some v =>
      rw [matchingRows_hit w l d1 v hc] at hfirst ⊢
      simp only [Outcome.ok.injEq] at hfirst
      subst hfirst
      exact ⟨hc, fun h => absurd h (by simp), fun _ => rfl⟩
    | none =>
      rw [matchingRows_miss w l d1 hc hne] at hfirst ⊢
      cases hdb : l.db with
      | none => rw [hdb] at hfirst; simp at hfirst
      | some s =>
        rw [hdb] at hfirst
        simp only at hfirst ⊢
        cases hq : s.queryErr d1.SourceID (sortStrings d1.MegaCollections) with
        | some e => rw [hq] at hfirst; simp at hfirst
        | none =>
          rw [hq] at hfirst
          simp only at hfirst ⊢
          cases hsc : scanRows s []
              (deliveredRows s d1.SourceID (sortStrings d1.MegaCollections)) with
          | error e => rw [hsc] at hfirst; simp at hfirst
          | ok result =>
            rw [hsc] at hfirst
            simp only [Outcome.ok.injEq] at hfirst
            subst hfirst
            exact ⟨GoMap.get?_set_self _ _ _, fun _ => rfl, fun h => absurd rfl h⟩
  rw [matchingRows_hit _ _ d2 rows hcached.1]
  exact ⟨rfl, rfl, rfl, hcached.2.1, hcached.2.2⟩


/-! ## The statements on the sample data -/

theorem cacheKey_order_independent_witness :
    (sampleDoc "5" ["ColB", "ColA"]).MegaCollections.Perm
      (sampleDoc "5" ["ColA", "ColB"]).MegaCollections ∧
    (cacheKey (sampleDoc "5" ["ColB", "ColA"])).1 =
      (cacheKey (sampleDoc "5" ["ColA", "ColB"])).1 ∧
    (cacheKey (sampleDoc "5" ["ColB", "ColA"])).1 = "5@ColA@ColB" :=
  ⟨by decide,
    (cacheKey_order_independent (sampleDoc "5" ["ColB", "ColA"]) (sampleDoc "5" ["ColA", "ColB"])
      rfl (by decide)).1,
    by decide⟩

theorem Covers_any_of_n_witness :
    ∃ b : Bool,
      HFCache.Covers sampleEnv sampleWorld ⟨[("http://h/ok", [("1234-5678", [(2000, 2010)])])]⟩
        "http://h/ok" (sampleDoc "49" ["ColA"]) =
        ⟨sampleWorld, ⟨[("http://h/ok", [("1234-5678", [(2000, 2010)])])]⟩, .ok b⟩ ∧
      b = true :=
  match Covers_any_of_n sampleEnv sampleWorld ⟨[("http://h/ok", [("1234-5678", [(2000, 2010)])])]⟩
    "http://h/ok" (sampleDoc "49" ["ColA"]) [("1234-5678", [(2000, 2010)])] rfl with
  | ⟨b, hb, htrue, _⟩ =>
    ⟨b, hb, htrue.mpr ⟨"1234-5678", by decide, (2000, 2010), by decide, by decide⟩⟩

theorem Label_zero_rules_witness :
    (sampleLabeler.Label sampleEnv sampleWorld (sampleDoc "4" ["x"])).out = .ok () ∧
    (sampleLabeler.Label sampleEnv sampleWorld (sampleDoc "4" ["x"])).world.stdout =
      [] ++ ["id-4" ++ "\t" ++ "" ++ "\n"] :=
  Label_zero_rules sampleEnv sampleWorld sampleLabeler (sampleDoc "4" ["x"]) rfl rfl

theorem Label_single_holdings_rule_witness :
    (sampleLabeler.Label sampleEnv sampleWorld (sampleDoc "49" ["ColA"])).out = .ok () ∧
    (sampleLabeler.Label sampleEnv sampleWorld (sampleDoc "49" ["ColA"])).world.stdout =
      [] ++ [labelLine (sampleDoc "49" ["ColA"]) ["DE-15"]] :=
  Label_single_holdings_rule sampleEnv sampleWorld sampleLabeler (sampleDoc "49" ["ColA"])
    (scanRow amslHoldings) true rfl rfl rfl (by decide) rfl

theorem Label_plain_rule_witness :
    (sampleLabeler.Label sampleEnv sampleWorld (sampleDoc "5" ["ColB", "ColA"])).out = .ok () ∧
    ∃ keys,
      (sampleLabeler.Label sampleEnv sampleWorld (sampleDoc "5" ["ColB", "ColA"])).world.stdout =
        [] ++ [labelLine (sampleDoc "5" ["ColB", "ColA"]) keys] ∧ "DE-14" ∈ keys :=
  have t := Label_plain_rule sampleEnv sampleWorld sampleLabeler (sampleDoc "5" ["ColB", "ColA"])
    [scanRow (amslAttach "DE-15" "ColA"), scanRow (amslAttach "DE-14" "ColB")]
    (scanRow (amslAttach "DE-14" "ColB")) rfl rfl (by decide) rfl rfl
  ⟨t.2.2 (by decide), t.1 (t.2.2 (by decide))⟩

theorem Label_rejects_unevaluated_holdings_witness :
    (sampleLabeler.Label sampleEnv sampleWorld (sampleDoc "3" ["M"])).out =
      .err (.holdingNotEvaluated (scanRow (amslUneval "3"))) ∧
    (sampleLabeler.Label sampleEnv sampleWorld (sampleDoc "3" ["M"])).world.stdout = [] :=
  have t := Label_rejects_unevaluated_holdings sampleEnv sampleWorld sampleLabeler
    (sampleDoc "3" ["M"]) [] [scanRow (amslDown "3")] (scanRow (amslUneval "3"))
    rfl rfl rfl (by decide)
  ⟨t.2.2 [] rfl, t.2.1⟩

/-- C1 as stated fails: the rule list of the record of source 2 contains a rule
with EvaluateHoldingsFileForLibrary "no" and a holdings link, yet Label returns
the download error of the rule before it, not a configuration error. -/
theorem Label_unevaluated_holdings_preempted :
    ((sampleLabeler.openDb sampleEnv).1.matchingRows sampleWorld (sampleDoc "2" ["M"])).out =
      .ok [scanRow (amslDown "2"), scanRow (amslUneval "2")] ∧
    (scanRow (amslUneval "2")).EvaluateHoldingsFileForLibrary = "no" ∧
    (scanRow (amslUneval "2")).LinkToHoldingsFile ≠ "" ∧
    (sampleLabeler.Label sampleEnv sampleWorld (sampleDoc "2" ["M"])).out =
      .err (.lib "connection refused") ∧
    (sampleLabeler.Label sampleEnv sampleWorld (sampleDoc "2" ["M"])).out ≠
      .err (.holdingNotEvaluated (scanRow (amslUneval "2"))) := by
  decide

theorem Label_populate_failure_fatal_witness :
    ((sampleLabeler.openDb sampleEnv).1.matchingRows sampleWorld (sampleDoc "7" ["M"])).out =
      .ok ([scanRow (amslFree "7")] ++ scanRow (amslDown "7") :: []) ∧
    (HFCache.Covers sampleEnv sampleWorld ⟨[]⟩ "http://h/down" (sampleDoc "7" ["M"])).out =
      .err (.lib "connection refused") ∧
    (sampleLabeler.Label sampleEnv sampleWorld (sampleDoc "7" ["M"])).out =
      .err (.lib "connection refused") ∧
    (sampleLabeler.Label sampleEnv sampleWorld (sampleDoc "7" ["M"])).world.stdout = [] ∧
    (sampleLabeler.Label sampleEnv sampleWorld (sampleDoc "2" ["M"])).out =
      .err (.lib "connection refused") ∧
    (sampleLabeler.Label sampleEnv sampleWorld (sampleDoc "3" ["M"])).out =
      .err (.holdingNotEvaluated (scanRow (amslUneval "3"))) ∧
    (sampleLabeler.Label sampleEnv sampleWorld (sampleDoc "3" ["M"])).world.stdout = [] :=
  have t7 := Label_populate_failure_fatal sampleEnv sampleWorld sampleLabeler
    (sampleDoc "7" ["M"]) [scanRow (amslFree "7")] [] (scanRow (amslDown "7"))
    (.lib "connection refused") rfl rfl rfl (by decide) (by decide)
  have t2 := Label_populate_failure_fatal sampleEnv sampleWorld sampleLabeler
    (sampleDoc "2" ["M"]) [] [scanRow (amslUneval "2")] (scanRow (amslDown "2"))
    (.lib "connection refused") rfl rfl rfl (by decide) (by decide)
  have t3 := Label_populate_failure_fatal sampleEnv sampleWorld sampleLabeler
    (sampleDoc "3" ["M"]) [scanRow (amslUneval "3")] [] (scanRow (amslDown "3"))
    (.lib "connection refused") rfl rfl rfl (by decide) (by decide)
  ⟨rfl,
    t7.1 sampleWorld ⟨[]⟩ "http://h/down" (sampleDoc "7" ["M"]) (.lib "connection refused")
      (by decide),
    t7.2.2.2.1 [(scanRow (amslFree "7")).ISIL] (by decide), t7.2.2.1,
    t2.2.2.2.1 [] (by decide),
    t3.2.2.2.2.1 (.holdingNotEvaluated (scanRow (amslUneval "3"))) (by decide), t3.2.2.1⟩

/-- C10 as stated fails: populate returns an error for `http://h/down`, the
record of source 3 has a rule with EvaluateHoldingsFileForLibrary "yes" that
points to it, yet Label returns the configuration error of the rule before it,
not the error of populate. -/
theorem Label_populate_failure_preempted :
    (HFCache.populate sampleEnv
      ((sampleLabeler.openDb sampleEnv).1.matchingRows sampleWorld (sampleDoc "3" ["M"])).world
      ⟨[]⟩ "http://h/down").out = .err (.lib "connection refused") ∧
    ((sampleLabeler.openDb sampleEnv).1.matchingRows sampleWorld (sampleDoc "3" ["M"])).out =
      .ok [scanRow (amslUneval "3"), scanRow (amslDown "3")] ∧
    (scanRow (amslDown "3")).EvaluateHoldingsFileForLibrary = "yes" ∧
    (scanRow (amslDown "3")).LinkToHoldingsFile = "http://h/down" ∧
    (sampleLabeler.Label sampleEnv sampleWorld (sampleDoc "3" ["M"])).out =
      .err (.holdingNotEvaluated (scanRow (amslUneval "3"))) ∧
    (sampleLabeler.Label sampleEnv sampleWorld (sampleDoc "3" ["M"])).out ≠
      .err (.lib "connection refused") := by
  decide

theorem matchingRows_miss_without_failure_witness :
    (sampleOpened.matchingRows sampleWorld (sampleDoc "5" ["ColB"])).out =
      .ok [scanRow (amslAttach "DE-14" "ColB")] :=
  (matchingRows_miss_without_failure sampleWorld sampleOpened (sampleDoc "5" ["ColB"])
    sampleStore rfl (by decide) rfl rfl rfl (fun _ _ _ _ => rfl)).1

/-- C8 on the code: the rule store holds two rules of source 5 whose
mega-collection is among the collections ColA and ColB of the record, and the
cache holds nothing under the record's key; stepping through the result of the
query fails after the first row.  matchingRows returns the first rule alone,
with a nil error, not every matching row, and stores that list in the cache: a
later call for the same source and collections is served the one rule without
a query, and Label prints the record with DE-15 only. -/
theorem matchingRows_truncated_on_iteration_failure :
    sampleDamaged.cache.get? (cacheKey (sampleDoc "5" ["ColA", "ColB"])).1 = none ∧
    sampleDamagedStore.rows.filter (fun r => decide (r.sid = "5" ∧
        (r.mc ∈ ["ColA", "ColB"] ∨ r.tcid ∈ ["ColA", "ColB"]))) =
      [amslAttach "DE-15" "ColA", amslAttach "DE-14" "ColB"] ∧
    sampleDamagedStore.queryErr "5" ["ColA", "ColB"] = none ∧
    (∀ r ∈ sampleDamagedStore.rows, sampleDamagedStore.scanErr r = none) ∧
    (sampleDamaged.matchingRows sampleWorld (sampleDoc "5" ["ColA", "ColB"])).out =
      .ok [scanRow (amslAttach "DE-15" "ColA")] ∧
    scanRow (amslAttach "DE-14" "ColB") ∉ [scanRow (amslAttach "DE-15" "ColA")] ∧
    ((sampleDamaged.matchingRows sampleWorld (sampleDoc "5" ["ColA", "ColB"])).labeler.matchingRows
      (sampleDamaged.matchingRows sampleWorld (sampleDoc "5" ["ColA", "ColB"])).world
      (sampleDoc "5" ["ColB", "ColA"])).out = .ok [scanRow (amslAttach "DE-15" "ColA")] ∧
    ((sampleDamaged.matchingRows sampleWorld (sampleDoc "5" ["ColA", "ColB"])).labeler.matchingRows
      (sampleDamaged.matchingRows sampleWorld (sampleDoc "5" ["ColA", "ColB"])).world
      (sampleDoc "5" ["ColB", "ColA"])).world.queries = [("5", ["ColA", "ColB"])] ∧
    (sampleDamaged.Label sampleEnv sampleWorld (sampleDoc "5" ["ColA", "ColB"])).out = .ok () ∧
    (sampleDamaged.Label sampleEnv sampleWorld (sampleDoc "5" ["ColA", "ColB"])).world.stdout =
      ["id-5\tDE-15\n"] ∧
    (sampleOpened.Label sampleEnv sampleWorld (sampleDoc "5" ["ColA", "ColB"])).world.stdout =
      ["id-5\tDE-14, DE-15\n"] := by
  decide

theorem matchingRows_second_call_cached_witness :
    ((sampleOpened.matchingRows sampleWorld (sampleDoc "5" ["ColB", "ColA"])).labeler.matchingRows
      (sampleOpened.matchingRows sampleWorld (sampleDoc "5" ["ColB", "ColA"])).world
      (sampleDoc "5" ["ColA", "ColB"])).out =
      .ok [scanRow (amslAttach "DE-15" "ColA"), scanRow (amslAttach "DE-14" "ColB")] ∧
    ((sampleOpened.matchingRows sampleWorld (sampleDoc "5" ["ColB", "ColA"])).labeler.matchingRows
      (sampleOpened.matchingRows sampleWorld (sampleDoc "5" ["ColB", "ColA"])).world
      (sampleDoc "5" ["ColA", "ColB"])).world.queries = [] ++ [("5", ["ColA", "ColB"])] :=
  have t := matchingRows_second_call_cached sampleWorld sampleOpened
    (sampleDoc "5" ["ColB", "ColA"]) (sampleDoc "5" ["ColA", "ColB"])
    [scanRow (amslAttach "DE-15" "ColA"), scanRow (amslAttach "DE-14" "ColB")]
    rfl (by decide) (by decide) rfl
  ⟨t.1, t.2.2.2.1 rfl⟩

/-- C7 on the code: a labeler that has labelled a record of source 1 whose
collection list holds one empty name serves the rule list cached under key
"1@" to the record of source 1 with an empty collection list, and Label
attaches DE-14 to it. -/
theorem matchingRows_empty_collections_served_from_cache :
    (sampleDoc "1" []).MegaCollections = [] ∧
    (cacheKey (sampleDoc "1" [""])).1 = (cacheKey (sampleDoc "1" [])).1 ∧
    ((sampleLabeler.Label sampleEnv sampleWorld (sampleDoc "1" [""])).labeler.matchingRows
      (sampleLabeler.Label sampleEnv sampleWorld (sampleDoc "1" [""])).world
      (sampleDoc "1" [])).out = .ok [scanRow amslPlain] ∧
    ((sampleLabeler.Label sampleEnv sampleWorld (sampleDoc "1" [""])).labeler.Label sampleEnv
      (sampleLabeler.Label sampleEnv sampleWorld (sampleDoc "1" [""])).world
      (sampleDoc "1" [])).world.stdout = ["id-1\tDE-14\n", "id-1\tDE-14\n"] := by
  decide


/-! ## The two caches: fetching once, append-only -/

theorem GoMap.get?_set {α : Type} (m : GoMap α) (k k1 : String) (v : α) :
    (m.set k v).get? k1 = if k1 = k then some v else m.get? k1 := by
  by_cases h : k1 = k
  · subst h
    simp [GoMap.get?, GoMap.set, List.lookup]
  · have hb : (k1 == k) = false := by simpa using h
    simp [GoMap.get?, GoMap.set, List.lookup, hb, h]

theorem osMkdirAll_frame {ε : Type} (env : Env ε) (w : World) (p : String) :
    (osMkdirAll env w p).1.fetched = w.fetched ∧ (osMkdirAll env w p).1.files = w.files := by
  unfold osMkdirAll
  split <;> simp

theorem ensureDir_frame {ε : Type} (env : Env ε) (w : World) (dir : String) :
    (ensureDir env w dir).1.fetched = w.fetched ∧ (ensureDir env w dir).1.files = w.files := by
  unfold ensureDir
  split
  · have hm := osMkdirAll_frame env w dir
    split
    · next w1 e h1 => rw [h1] at hm; exact hm
    · next w1 h1 => rw [h1] at hm; exact hm
  · simp
  · simp
  · simp

theorem download_fetched {ε : Type} (env : Env ε) (w : World) (link filename : String) :
    (download env w link filename).1.fetched = w.fetched ++ [link] := by
  unfold download
  split
  · simp
  · split
    · simp
    · split <;> simp

theorem osStat_notExist {ε : Type} (env : Env ε) (w : World) (p : String)
    (h : osStat env w p = .notExist) : w.files.get? p = none := by
  unfold osStat at h
  split_ifs at h with h1 h2 h3
  simpa using h3

theorem ensureFile_fetched {ε : Type} (env : Env ε) (w : World) (hflink filename : String) :
    ((ensureFile env w hflink filename).1.fetched = w.fetched ∨
      ((ensureFile env w hflink filename).1.fetched = w.fetched ++ [hflink] ∧
        w.files.get? filename = none)) := by
  unfold ensureFile
  split
  · next h =>
    right
    exact ⟨download_fetched env w hflink filename, osStat_notExist env w filename h⟩
  · left; rfl

theorem populate_fetched {ε : Type} (env : Env ε) (w : World) (c : HFCache ε) (hflink : String) :
    (HFCache.populate env w c hflink).world.fetched = w.fetched ∨
      ((HFCache.populate env w c hflink).world.fetched = w.fetched ++ [hflink] ∧
        c.entries.get? hflink = none ∧ w.files.get? (cacheFilename env hflink) = none) := by
  unfold HFCache.populate
  split
  · left; rfl
  · next hnone =>
    simp only
    have hd := ensureDir_frame env w (cacheDir env)
    split
    · next w1 e h1 => rw [h1] at hd; left; exact hd.1
    · next w1 h1 => rw [h1] at hd; left; exact hd.1
    · next w1 h1 =>
      rw [h1] at hd
      simp only at hd
      have hf := ensureFile_fetched env w1 hflink (cacheFilename env hflink)
      rw [hd.1, hd.2] at hf
      split
      · next w2 e h2 =>
        rw [h2] at hf
        rcases hf with hf | ⟨hf, hfile⟩
        · left; exact hf
        · right; exact ⟨hf, hnone, hfile⟩
      · next w2 h2 =>
        rw [h2] at hf
        have hres : w2.fetched = w.fetched ∨ (w2.fetched = w.fetched ++ [hflink] ∧
            c.entries.get? hflink = none ∧ w.files.get? (cacheFilename env hflink) = none) := by
          rcases hf with hf | ⟨hf, hfile⟩
          · left; exact hf
          · right; exact ⟨hf, hnone, hfile⟩
        split <;> exact hres

theorem populate_cache {ε : Type} (env : Env ε) (w : World) (c : HFCache ε) (hflink : String) :
    ((HFCache.populate env w c hflink).cache = c ∧
      (c.entries.get? hflink = none → (HFCache.populate env w c hflink).out ≠ .ok ())) ∨
      (c.entries.get? hflink = none ∧ (HFCache.populate env w c hflink).out = .ok () ∧
        ∃ index, (HFCache.populate env w c hflink).cache =
          { c with entries := c.entries.set hflink index }) := by
  unfold HFCache.populate
  split
  · next v hv => left; exact ⟨rfl, fun h => by rw [h] at hv; simp at hv⟩
  · next hnone =>
    simp only
    split
    · left; exact ⟨rfl, fun _ => by simp⟩
    · left; exact ⟨rfl, fun _ => by simp⟩
    · split
      · left; exact ⟨rfl, fun _ => by simp⟩
      · split
        · left; exact ⟨rfl, fun _ => by simp⟩
        · right; exact ⟨hnone, rfl, _, rfl⟩

theorem populate_ok_cached {ε : Type} (env : Env ε) (w : World) (c : HFCache ε) (hflink : String)
    (hok : (HFCache.populate env w c hflink).out = .ok ()) :
    ∃ index, (HFCache.populate env w c hflink).cache.entries.get? hflink = some index := by
  cases hc : c.entries.get? hflink with
  | some index =>
    rw [populate_of_cached env w c hflink index hc]
    exact ⟨index, hc⟩
  | none =>
    rcases populate_cache env w c hflink with ⟨_, h⟩ | ⟨_, _, index, h⟩
    · exact absurd hok (h hc)
    · rw [h]
      exact ⟨index, by simp [GoMap.get?_set]⟩

theorem populate_keeps {ε : Type} (env : Env ε) (w : World) (c : HFCache ε) (hflink k : String)
    (v : GoMap (List ε)) (h : c.entries.get? k = some v) :
    (HFCache.populate env w c hflink).cache.entries.get? k = some v := by
  rcases populate_cache env w c hflink with ⟨hc, _⟩ | ⟨hnone, _, index, hc⟩
  · rw [hc]; exact h
  · rw [hc]
    simp only [GoMap.get?_set]
    have hne : k ≠ hflink := by
      intro heq
      rw [heq, hnone] at h
      simp at h
    simp [hne, h]

theorem populateAll_keeps {ε : Type} (env : Env ε) (ks : List String) :
    ∀ (w : World) (c : HFCache ε) (k : String) (v : GoMap (List ε)),
      c.entries.get? k = some v → (populateAll env w c ks).2.entries.get? k = some v := by
  induction ks with
  | nil => intro w c k v h; exact h
  | cons k1 rest ih =>
    intro w c k v h
    simp only [populateAll]
    exact ih _ _ k v (populate_keeps env w c k1 k v h)


theorem matchingRows_cache {ε : Type} (w : World) (l : Labeler ε) (doc : IntermediateSchema) :
    (l.matchingRows w doc).labeler = l ∨
      (l.cache.get? (cacheKey doc).1 = none ∧
        ∃ result, (l.matchingRows w doc).labeler =
          { l with cache := l.cache.set (cacheKey doc).1 result }) := by
  unfold Labeler.matchingRows
  simp only
  split
  · left; rfl
  · next hnone =>
    split
    · left; rfl
    · split
      · left; rfl
      · split
        · left; rfl
        · split
          · left; rfl
          · split
            · left; rfl
            · right; exact ⟨hnone, _, rfl⟩

/-- C11: a holdings reference is fetched at most once.  populate requests the
link at most once per call, and only when the reference is neither in the
entries map nor present as a file under its cache filename; and after one
successful populate of a reference, in every later state (whatever other
populate calls came in between) populate and Covers for that reference return
with world (no download, no file written) and cache exactly as they were,
whatever the file system and the network would answer (no file access). -/
theorem populate_fetches_once {ε : Type} (env : Env ε) (w : World) (c : HFCache ε)
    (hflink : String) :
    ((HFCache.populate env w c hflink).world.fetched = w.fetched ∨
      ((HFCache.populate env w c hflink).world.fetched = w.fetched ++ [hflink] ∧
        c.entries.get? hflink = none ∧ w.files.get? (cacheFilename env hflink) = none)) ∧
    ((HFCache.populate env w c hflink).out = .ok () →
      ∀ (ks : List String) (d : IntermediateSchema) (env2 : Env ε),
        HFCache.populate env2
          (populateAll env (HFCache.populate env w c hflink).world
            (HFCache.populate env w c hflink).cache ks).1
          (populateAll env (HFCache.populate env w c hflink).world
            (HFCache.populate env w c hflink).cache ks).2 hflink =
          ⟨(populateAll env (HFCache.populate env w c hflink).world
            (HFCache.populate env w c hflink).cache ks).1,
            (populateAll env (HFCache.populate env w c hflink).world
              (HFCache.populate env w c hflink).cache ks).2, .ok ()⟩ ∧
        ∃ b, HFCache.Covers env2
          (populateAll env (HFCache.populate env w c hflink).world
            (HFCache.populate env w c hflink).cache ks).1
          (populateAll env (HFCache.populate env w c hflink).world
            (HFCache.populate env w c hflink).cache ks).2 hflink d =
          ⟨(populateAll env (HFCache.populate env w c hflink).world
            (HFCache.populate env w c hflink).cache ks).1,
            (populateAll env (HFCache.populate env w c hflink).world
              (HFCache.populate env w c hflink).cache ks).2, .ok b⟩) := by
  refine ⟨populate_fetched env w c hflink, ?_⟩
  intro hok ks d env2
  obtain ⟨index, hidx⟩ := populate_ok_cached env w c hflink hok
  have hlater := populateAll_keeps env ks (HFCache.populate env w c hflink).world
    (HFCache.populate env w c hflink).cache hflink index hidx
  refine ⟨populate_of_cached env2 _ _ hflink index hlater, ?_⟩
  obtain ⟨b, hb, _⟩ := Covers_any_of_lemma env2 _ _ hflink d index hlater
  exact ⟨b, hb⟩

/-- C12: both caches are append-only.  A call of matchingRows leaves every key
of the rule-match cache with its value and adds at most the key of the
document; a call of populate leaves every key of the entries map with its value
and adds at most the reference. -/
theorem caches_append_only {ε : Type} (env : Env ε) (w : World) (l : Labeler ε)
    (doc : IntermediateSchema) (c : HFCache ε) (hflink : String) :
    (∀ k v, l.cache.get? k = some v → (l.matchingRows w doc).labeler.cache.get? k = some v) ∧
    (∀ k, (l.matchingRows w doc).labeler.cache.get? k ≠ none →
      l.cache.get? k ≠ none ∨ k = (cacheKey doc).1) ∧
    (∀ k v, c.entries.get? k = some v →
      (HFCache.populate env w c hflink).cache.entries.get? k = some v) ∧
    (∀ k, (HFCache.populate env w c hflink).cache.entries.get? k ≠ none →
      c.entries.get? k ≠ none ∨ k = hflink) := by
  refine ⟨?_, ?_, fun k v h => populate_keeps env w c hflink k v h, ?_⟩
  · intro k v h
    rcases matchingRows_cache w l doc with hl | ⟨hnone, result, hl⟩
    · rw [hl]; exact h
    · rw [hl]
      simp only [GoMap.get?_set]
      have hne : k ≠ (cacheKey doc).1 := by
        intro heq
        rw [heq, hnone] at h
        simp at h
      simp [hne, h]
  · intro k h
    rcases matchingRows_cache w l doc with hl | ⟨_, result, hl⟩
    · rw [hl] at h; left; exact h
    · rw [hl] at h
      simp only [GoMap.get?_set] at h
      by_cases hk : k = (cacheKey doc).1
      · right; exact hk
      · left; simpa [hk] using h
  · intro k h
    rcases populate_cache env w c hflink with ⟨hc, _⟩ | ⟨_, _, index, hc⟩
    · rw [hc] at h; left; exact h
    · rw [hc] at h
      simp only [GoMap.get?_set] at h
      by_cases hk : k = hflink
      · right; exact hk
      · left; simpa [hk] using h


/-! ## span-tag: lemmas -/

theorem stringSliceContains_iff (ss : List String) (s : String) :
    stringSliceContains ss s = true ↔ s ∈ ss := by
  induction ss with
  | nil => simp [stringSliceContains]
  | cons v rest ih =>
    unfold stringSliceContains
    by_cases h : v = s
    · simp [h]
    · have h1 : ¬ s = v := fun e => h e.symm
      simp [h, h1, ih]

theorem droppable_iff (flags : TagFlags) (rec : IntermediateSchema) (label : String)
    (docs : List SolrDoc) :
    droppable flags rec label docs = true ↔
      ∃ hit ∈ docs, ¬ (flags.ignoreSameIdentifier = true ∧ hit.ID = rec.ID) ∧
        label ∈ hit.Institution ∧
        preferencePosition flags rec.SourceID ≥ preferencePosition flags hit.SourceID := by
  induction docs with
  | nil => simp [droppable]
  | cons doc rest ih =>
    unfold droppable
    by_cases h1 : flags.ignoreSameIdentifier = true ∧ doc.ID = rec.ID
    · have hb : (flags.ignoreSameIdentifier && doc.ID == rec.ID) = true := by
        simp [h1.1, h1.2]
      rw [if_pos hb, ih]
      constructor
      · rintro ⟨hit, hm, hrest⟩
        exact ⟨hit, List.mem_cons_of_mem _ hm, hrest⟩
      · rintro ⟨hit, hm, hskip, hrest⟩
        rcases List.mem_cons.mp hm with heq | hin
        · subst heq
          exact absurd h1 hskip
        · exact ⟨hit, hin, hskip, hrest⟩
    · have hb : ¬ ((flags.ignoreSameIdentifier && doc.ID == rec.ID) = true) := by
        simpa using h1
      rw [if_neg hb]
      by_cases h2 : label ∈ doc.Institution
      · have hc : ¬ ((!stringSliceContains doc.Institution label) = true) := by
          simp [(stringSliceContains_iff doc.Institution label).mpr h2]
        rw [if_neg hc]
        by_cases h3 : preferencePosition flags rec.SourceID ≥ preferencePosition flags doc.SourceID
        · rw [if_pos h3]
          exact ⟨fun _ => ⟨doc, List.mem_cons_self _ _, h1, h2, h3⟩, fun _ => rfl⟩
        · rw [if_neg h3, ih]
          constructor
          · rintro ⟨hit, hm, hrest⟩
            exact ⟨hit, List.mem_cons_of_mem _ hm, hrest⟩
          · rintro ⟨hit, hm, hskip, hl, hp⟩
            rcases List.mem_cons.mp hm with heq | hin
            · subst heq
              exact absurd hp h3
            · exact ⟨hit, hin, hskip, hl, hp⟩
      · have hc : (!stringSliceContains doc.Institution label) = true := by
          have : stringSliceContains doc.Institution label = false := by
            cases hs : stringSliceContains doc.Institution label with
            | false => rfl
            | true => exact absurd ((stringSliceContains_iff _ _).mp hs) h2
          simp [this]
        rw [if_pos hc, ih]
        constructor
        · rintro ⟨hit, hm, hrest⟩
          exact ⟨hit, List.mem_cons_of_mem _ hm, hrest⟩
        · rintro ⟨hit, hm, hskip, hl, hp⟩
          rcases List.mem_cons.mp hm with heq | hin
          · subst heq
            exact absurd hl h2
          · exact ⟨hit, hin, hskip, hl, hp⟩

theorem droppableLoop_eq (flags : TagFlags) (rec : IntermediateSchema) (docs : List SolrDoc)
    (rest : List String) :
    ∀ labels : List String,
      droppableLoop flags rec docs labels rest =
        labels ++ rest.filter (fun label => droppable flags rec label docs) := by
  induction rest with
  | nil => intro labels; simp [droppableLoop]
  | cons label tl ih =>
    intro labels
    unfold droppableLoop
    by_cases h : droppable flags rec label docs = true
    · rw [if_pos h, ih]
      simp [List.filter_cons, h]
    · rw [if_neg h, ih]
      simp [List.filter_cons, h]

theorem DroppableLabels_eq (flags : TagFlags) (solr : Solr) (rec : IntermediateSchema)
    (body : String) (sr : SelectResponse)
    (hdoi : stringsTrimSpace rec.DOI ≠ "")
    (hget : solr.get (selectLink flags solr (stringsTrimSpace rec.DOI)) = .ok body)
    (hdec : solr.decode body = .ok sr) :
    DroppableLabels flags solr rec =
      .ok (rec.Labels.filter (fun label => droppable flags rec label sr.docs)) := by
  simp only [DroppableLabels, hdoi, if_false, hget, hdec, droppableLoop_eq, List.nil_append]

theorem preferencePosition_default_105 (flags : TagFlags) (h : flags.prefs = defaultPrefs) :
    preferencePosition flags "105" = 5 := by
  unfold preferencePosition
  rw [h]
  decide

theorem preferencePosition_default_85 (flags : TagFlags) (h : flags.prefs = defaultPrefs) :
    preferencePosition flags "85" = 0 := by
  unfold preferencePosition
  rw [h]
  decide

/-- C13: DroppableLabels against the index response.  With a non-blank DOI and
a response that is fetched and decoded, DroppableLabels returns the labels of
the record, in the record's order, for which some hit that is not skipped (not
"same identifier while ignoring same identifiers") carries the label among its
institutions and has a preference position not greater than that of the
record's source; with the default preference list a record of source 105 loses
every label that an unskipped hit of source 85 carries, and a record of source
85 keeps every label that only hits of source 105 carry. -/
theorem DroppableLabels_spec (flags : TagFlags) (solr : Solr) (rec : IntermediateSchema)
    (body : String) (sr : SelectResponse)
    (hdoi : stringsTrimSpace rec.DOI ≠ "")
    (hget : solr.get (selectLink flags solr (stringsTrimSpace rec.DOI)) = .ok body)
    (hdec : solr.decode body = .ok sr) :
    ∃ out, DroppableLabels flags solr rec = .ok out ∧
      out = rec.Labels.filter (fun label => decide (∃ hit ∈ sr.docs,
        ¬ (flags.ignoreSameIdentifier = true ∧ hit.ID = rec.ID) ∧ label ∈ hit.Institution ∧
        preferencePosition flags rec.SourceID ≥ preferencePosition flags hit.SourceID)) ∧
      (flags.prefs = defaultPrefs → rec.SourceID = "105" →
        ∀ label ∈ rec.Labels, (∃ hit ∈ sr.docs,
          ¬ (flags.ignoreSameIdentifier = true ∧ hit.ID = rec.ID) ∧ hit.SourceID = "85" ∧
          label ∈ hit.Institution) → label ∈ out) ∧
      (flags.prefs = defaultPrefs → rec.SourceID = "85" →
        ∀ label, (∀ hit ∈ sr.docs, label ∈ hit.Institution → hit.SourceID = "105") →
          label ∉ out) := by
  refine ⟨_, DroppableLabels_eq flags solr rec body sr hdoi hget hdec, ?_, ?_, ?_⟩
  · apply List.filter_congr
    intro label _
    rw [Bool.eq_iff_iff, droppable_iff, decide_eq_true_eq]
  · intro hprefs hsid label hlabel ⟨hit, hm, hskip, hsrc, hinst⟩
    rw [List.mem_filter]
    refine ⟨hlabel, (droppable_iff flags rec label sr.docs).mpr ⟨hit, hm, hskip, hinst, ?_⟩⟩
    rw [hsid, hsrc, preferencePosition_default_105 flags hprefs,
      preferencePosition_default_85 flags hprefs]
    decide
  · intro hprefs hsid label honly hmem
    rw [List.mem_filter] at hmem
    obtain ⟨hit, hm, _, hinst, hpos⟩ := (droppable_iff flags rec label sr.docs).mp hmem.2
    rw [hsid, honly hit hm hinst, preferencePosition_default_105 flags hprefs,
      preferencePosition_default_85 flags hprefs] at hpos
    exact absurd hpos (by decide)

/-- C14: ignoring the same identifier.  With the option enabled DroppableLabels
returns what it returns for the response with every hit removed whose ID is
the record's ID; with the option disabled, a hit with the record's own ID and
source that carries a label of the record makes that label droppable. -/
theorem DroppableLabels_same_identifier (flags : TagFlags) (solr : Solr)
    (rec : IntermediateSchema) :
    (flags.ignoreSameIdentifier = true →
      DroppableLabels flags solr rec =
        DroppableLabels flags
          { solr with decode := fun b =>
              (solr.decode b).map (fun sr => ⟨sr.docs.filter (fun d => d.ID != rec.ID)⟩) }
          rec) ∧
    (flags.ignoreSameIdentifier = false →
      ∀ (body : String) (sr : SelectResponse) (hit : SolrDoc) (label : String),
        stringsTrimSpace rec.DOI ≠ "" →
        solr.get (selectLink flags solr (stringsTrimSpace rec.DOI)) = .ok body →
        solr.decode body = .ok sr →
        hit ∈ sr.docs → hit.ID = rec.ID → hit.SourceID = rec.SourceID →
        label ∈ hit.Institution → label ∈ rec.Labels →
        ∃ out, DroppableLabels flags solr rec = .ok out ∧ label ∈ out) := by
  constructor
  · intro hisi
    have hdrop : ∀ (label : String) (docs : List SolrDoc),
        droppable flags rec label (docs.filter (fun d => d.ID != rec.ID)) =
          droppable flags rec label docs := by
      intro label docs
      rw [Bool.eq_iff_iff, droppable_iff, droppable_iff]
      constructor
      · rintro ⟨hit, hm, hrest⟩
        exact ⟨hit, (List.mem_filter.mp hm).1, hrest⟩
      · rintro ⟨hit, hm, hskip, hrest⟩
        refine ⟨hit, List.mem_filter.mpr ⟨hm, ?_⟩, hskip, hrest⟩
        have hne : hit.ID ≠ rec.ID := fun e => hskip ⟨hisi, e⟩
        simpa using hne
    unfold DroppableLabels
    simp only [selectLink]
    split_ifs with hdoi
    · rfl
    · cases hg : solr.get (flags.server ++ "/select?df=allfields&wt=json&q=\"" ++
          solr.queryEscape (stringsTrimSpace rec.DOI) ++ "\"") with
      | error e => rfl
      | ok body =>
        simp only
        cases hd : solr.decode body with
        | error e => rfl
        | ok sr =>
          simp only [Except.map, droppableLoop_eq, List.nil_append, hdrop]
  · intro hisi body sr hit label hdoi hget hdec hm hid hsrc hinst hlabel
    refine ⟨_, DroppableLabels_eq flags solr rec body sr hdoi hget hdec, ?_⟩
    rw [List.mem_filter]
    refine ⟨hlabel, (droppable_iff flags rec label sr.docs).mpr ⟨hit, hm, ?_, hinst, ?_⟩⟩
    · rintro ⟨h, _⟩
      rw [hisi] at h
      cases h
    · exact le_of_eq (congrArg (preferencePosition flags) hsrc)


theorem fieldsGo_no_space (input : List Char) :
    ∀ cur : List Char, (∀ c ∈ cur, isSpace c = false) →
      ∀ f ∈ fieldsGo cur input, ∀ c ∈ f, isSpace c = false := by
  induction input with
  | nil =>
    intro cur hcur f hf
    unfold fieldsGo at hf
    split_ifs at hf
    · simp at hf
    · rw [List.mem_singleton] at hf
      subst hf
      exact hcur
  | cons x xs ih =>
    intro cur hcur f hf
    unfold fieldsGo at hf
    by_cases hx : isSpace x = true
    · rw [if_pos hx] at hf
      split_ifs at hf
      · exact ih [] (fun c hc => absurd hc (List.not_mem_nil _)) f hf
      · rcases List.mem_cons.mp hf with heq | hin
        · subst heq
          exact hcur
        · exact ih [] (fun c hc => absurd hc (List.not_mem_nil _)) f hin
    · rw [if_neg hx] at hf
      refine ih (cur ++ [x]) ?_ f hf
      intro c hc
      rcases List.mem_append.mp hc with h | h
      · exact hcur c h
      · rw [List.mem_singleton] at h
        subst h
        simpa using hx

theorem dropWhile_of_no_space (l : List Char) (h : ∀ c ∈ l, isSpace c = false) :
    l.dropWhile isSpace = l := by
  cases l with
  | nil => rfl
  | cons a as =>
    apply List.dropWhile_cons_of_neg
    rw [h a (List.mem_cons_self _ _)]
    simp

theorem stringsTrimSpace_field (prefs v : String) (hv : v ∈ stringsFields prefs) :
    stringsTrimSpace v = v := by
  unfold stringsFields at hv
  obtain ⟨f, hf, rfl⟩ := List.mem_map.mp hv
  have hns := fieldsGo_no_space prefs.data [] (fun c hc => absurd hc (List.not_mem_nil _)) f hf
  unfold stringsTrimSpace
  simp only
  rw [dropWhile_of_no_space f hns,
    dropWhile_of_no_space f.reverse (fun c hc => hns c (List.mem_reverse.mp hc)),
    List.reverse_reverse]

theorem preferenceLoop_eq (sid : String) (fields : List String)
    (htrim : ∀ v ∈ fields, stringsTrimSpace v = v) :
    ∀ pos : Nat, preferenceLoop sid pos fields =
      if sid ∈ fields then ((pos + fields.indexOf sid : Nat) : Int) else 1000 := by
  induction fields with
  | nil => intro pos; simp [preferenceLoop]
  | cons v rest ih =>
    intro pos
    unfold preferenceLoop
    rw [htrim v (List.mem_cons_self _ _)]
    by_cases hv : v = sid
    · subst hv
      simp
    · have hne : sid ≠ v := fun e => hv e.symm
      rw [if_neg hv, ih (fun x hx => htrim x (List.mem_cons_of_mem _ hx)) (pos + 1)]
      rw [List.indexOf_cons_ne rest hv]
      by_cases hm : sid ∈ rest
      · simp only [hm, List.mem_cons, or_true, if_true]
        congr 1
        omega
      · simp [hm, hne]

/-- The position of a source in the preference list.  For every preference
list, every source ID s among its white-space separated fields and every
source ID u not among them, preferencePosition(s) is the zero-based index of the
first occurrence of s and preferencePosition(u) is the constant of line 93;
preferencePosition(u) is strictly greater than preferencePosition(s) as long as
s stands among the first 1000 fields, which a list of at most 1000 fields
guarantees. -/
theorem preferencePosition_spec (flags : TagFlags) (s u : String)
    (hs : s ∈ stringsFields flags.prefs) (hu : u ∉ stringsFields flags.prefs) :
    preferencePosition flags s = (((stringsFields flags.prefs).indexOf s : Nat) : Int) ∧
    preferencePosition flags u = 1000 ∧
    ((stringsFields flags.prefs).indexOf s < 1000 →
      preferencePosition flags u > preferencePosition flags s) ∧
    ((stringsFields flags.prefs).length ≤ 1000 →
      preferencePosition flags u > preferencePosition flags s) := by
  have htrim : ∀ v ∈ stringsFields flags.prefs, stringsTrimSpace v = v :=
    fun v hv => stringsTrimSpace_field flags.prefs v hv
  have h1 : preferencePosition flags s = (((stringsFields flags.prefs).indexOf s : Nat) : Int) := by
    unfold preferencePosition
    rw [preferenceLoop_eq s _ htrim 0, if_pos hs]
    simp
  have h2 : preferencePosition flags u = 1000 := by
    unfold preferencePosition
    rw [preferenceLoop_eq u _ htrim 0, if_neg hu]
  have h3 : (stringsFields flags.prefs).indexOf s < 1000 →
      preferencePosition flags u > preferencePosition flags s := by
    intro hlt
    rw [h1, h2]
    omega
  refine ⟨h1, h2, h3, ?_⟩
  intro hlen
  exact h3 (lt_of_lt_of_le (List.indexOf_lt_length.mpr hs) hlen)

theorem fieldsGo_longField (n : Nat) (tail : List Char) :
    fieldsGo [] (longField n tail) = List.replicate n ['a'] ++ fieldsGo [] tail := by
  induction n with
  | zero => rfl
  | succ k ih =>
    have hstep : fieldsGo [] ('a' :: ' ' :: longField k tail) =
        ['a'] :: fieldsGo [] (longField k tail) := by
      rw [fieldsGo, if_neg (by decide), fieldsGo, if_pos (by decide)]
      rfl
    simp only [longField, hstep, ih, List.replicate_succ, List.cons_append]

theorem preferenceLoop_long (sid : String) (hsid : sid ≠ "a") (n : Nat) (rest : List String) :
    ∀ pos : Nat, preferenceLoop sid pos (List.replicate n "a" ++ rest) =
      preferenceLoop sid (pos + n) rest := by
  induction n with
  | zero => intro pos; rfl
  | succ k ih =>
    intro pos
    have htrim : stringsTrimSpace "a" = "a" := by decide
    simp only [List.replicate_succ, List.cons_append]
    rw [preferenceLoop, htrim, if_neg (fun e => hsid e.symm), ih (pos + 1)]
    congr 1
    omega

theorem stringsFields_longPrefs :
    stringsFields longPrefs = List.replicate 1000 "a" ++ ["b"] := by
  unfold stringsFields longPrefs
  simp only
  rw [fieldsGo_longField 1000 ['b']]
  have hb : fieldsGo [] ['b'] = [['b']] := by decide
  rw [hb, List.map_append, List.map_replicate]
  rfl

/-- C15 on the code: in the preference list of 1000 fields "a" followed by
"b", the source "b" occurs, at index 1000, and "c" does not occur, yet
preferencePosition is 1000 for both: the unlisted source does not get a higher
number than the listed one, against the comment of preferencePosition ("If
there is no match, return some higher number") and of line 93 ("Or anything
higher than the number of sources"). -/
theorem preferencePosition_beyond_1000 :
    "b" ∈ stringsFields longPrefs ∧ "c" ∉ stringsFields longPrefs ∧
    preferencePosition ⟨"", longPrefs, false⟩ "b" = 1000 ∧
    preferencePosition ⟨"", longPrefs, false⟩ "c" = 1000 ∧
    ¬ (preferencePosition ⟨"", longPrefs, false⟩ "c" >
      preferencePosition ⟨"", longPrefs, false⟩ "b") := by
  have hb : preferencePosition ⟨"", longPrefs, false⟩ "b" = 1000 := by
    unfold preferencePosition
    simp only
    rw [stringsFields_longPrefs, preferenceLoop_long "b" (by decide) 1000 ["b"] 0]
    decide
  have hc : preferencePosition ⟨"", longPrefs, false⟩ "c" = 1000 := by
    unfold preferencePosition
    simp only
    rw [stringsFields_longPrefs, preferenceLoop_long "c" (by decide) 1000 ["b"] 0]
    decide
  refine ⟨?_, ?_, hb, hc, ?_⟩
  · rw [stringsFields_longPrefs]
    exact List.mem_append_right _ (List.mem_singleton.mpr rfl)
  · rw [stringsFields_longPrefs]
    intro h
    rcases List.mem_append.mp h with h1 | h1
    · have := List.eq_of_mem_replicate h1
      exact absurd this (by decide)
    · rw [List.mem_singleton] at h1
      exact absurd h1 (by decide)
  · rw [hb, hc]
    decide


/-! ## The output line of Label -/

theorem intercalate_go_data (sep : String) (l : List String) :
    ∀ acc : String, (String.intercalate.go acc sep l).data =
      acc.data ++ (l.map (fun a => sep.data ++ a.data)).flatten := by
  induction l with
  | nil => intro acc; simp [String.intercalate.go]
  | cons a rest ih =>
    intro acc
    simp [String.intercalate.go, ih, List.append_assoc]

theorem splitComma_ne_nil (l : List Char) : splitComma l ≠ [] := by
  cases l with
  | nil => simp [splitComma]
  | cons c cs =>
    unfold splitComma
    split_ifs
    · simp
    · split <;> simp

theorem splitComma_append (a r : List Char) (ha : ∀ c ∈ a, c ≠ ',') :
    splitComma (a ++ ',' :: r) = a :: splitComma r := by
  induction a with
  | nil => simp [splitComma]
  | cons x xs ih =>
    have hx : x ≠ ',' := ha x (List.mem_cons_self _ _)
    rw [List.cons_append, splitComma, if_neg hx,
      ih (fun c hc => ha c (List.mem_cons_of_mem _ hc))]

theorem splitComma_plain (a : List Char) (ha : ∀ c ∈ a, c ≠ ',') : splitComma a = [a] := by
  induction a with
  | nil => rfl
  | cons x xs ih =>
    have hx : x ≠ ',' := ha x (List.mem_cons_self _ _)
    rw [splitComma, if_neg hx, ih (fun c hc => ha c (List.mem_cons_of_mem _ hc))]

theorem splitComma_joined (ks : List String) (hks : ∀ k ∈ ks, ∀ c ∈ k.data, c ≠ ',') :
    ∀ k0 : List Char, (∀ c ∈ k0, c ≠ ',') →
      splitComma (k0 ++ (ks.map (fun a => ", ".data ++ a.data)).flatten) =
        k0 :: ks.map (fun k => ' ' :: k.data) := by
  induction ks with
  | nil => intro k0 h0; simpa using splitComma_plain k0 h0
  | cons k rest ih =>
    intro k0 h0
    have hk : ∀ c ∈ ' ' :: k.data, c ≠ ',' := by
      intro c hc
      rcases List.mem_cons.mp hc with h | h
      · rw [h]; decide
      · exact hks k (List.mem_cons_self _ _) c h
    have hstep : k0 ++ ((k :: rest).map (fun a => ", ".data ++ a.data)).flatten =
        k0 ++ ',' :: ((' ' :: k.data) ++ (rest.map (fun a => ", ".data ++ a.data)).flatten) := by
      simp [List.flatten]
    rw [hstep, splitComma_append k0 _ h0,
      ih (fun x hx => hks x (List.mem_cons_of_mem _ hx)) (' ' :: k.data) hk]
    rfl

theorem secondColumn_line (id col : List Char) (hid : ∀ c ∈ id, c ≠ '\t') :
    secondColumn (String.mk (id ++ '\t' :: (col ++ ['\n']))) = col := by
  unfold secondColumn
  simp only
  have hdrop : ∀ (l : List Char), (∀ c ∈ l, c ≠ '\t') → ∀ r : List Char,
      (l ++ '\t' :: r).dropWhile (fun c => c != '\t') = '\t' :: r := by
    intro l
    induction l with
    | nil => intro _ r; simp [List.dropWhile]
    | cons x xs ih =>
      intro h r
      have hx : x ≠ '\t' := h x (List.mem_cons_self _ _)
      rw [List.cons_append, List.dropWhile_cons_of_pos (by simpa using hx)]
      exact ih (fun c hc => h c (List.mem_cons_of_mem _ hc)) r
  rw [hdrop id hid]
  simp

/-- C18, amended: the line Label prints.  When Label has gone through the
rules with label set `labels`, it prints the record identifier, one TAB, the
labels in ascending order joined by a comma followed by one blank, and a
newline; for an identifier without TAB and labels without comma, splitting the
second column on "," yields the first label and every further label with one
blank in front. -/
theorem Label_line_format {ε : Type} (env : Env ε) (w : World) (l : Labeler ε)
    (doc : IntermediateSchema) (rows : List ConfigRow) (w2 : World) (c2 : HFCache ε)
    (labels : List String)
    (hopen : (l.openDb env).2 = none)
    (hrows : ((l.openDb env).1.matchingRows w doc).out = .ok rows)
    (hloop : labelRows env (cacheKey doc).2 ((l.openDb env).1.matchingRows w doc).world
      ((l.openDb env).1.matchingRows w doc).labeler.hfcache [] rows = ⟨w2, c2, .ok labels⟩) :
    (l.Label env w doc).world.stdout =
      w.stdout ++ [doc.ID ++ "\t" ++ ", ".intercalate (sortStrings labels) ++ "\n"] ∧
    ((∀ c ∈ doc.ID.data, c ≠ '\t') → (∀ k ∈ labels, ∀ c ∈ k.data, c ≠ ',') →
      ∀ (k0 : String) (ks : List String), sortStrings labels = k0 :: ks →
        splitComma (secondColumn
          (doc.ID ++ "\t" ++ ", ".intercalate (sortStrings labels) ++ "\n")) =
          k0.data :: ks.map (fun k => ' ' :: k.data)) := by
  constructor
  · have hst := labelRows_stdout env (cacheKey doc).2 rows
      ((l.openDb env).1.matchingRows w doc).world
      ((l.openDb env).1.matchingRows w doc).labeler.hfcache []
    rw [matchingRows_stdout, hloop] at hst
    simp only at hst
    rw [Label_eq env w l doc rows hopen hrows, hloop]
    simp [hst, labelLine, stringsJoin]
  · intro hid hlabels k0 ks hsorted
    rw [hsorted]
    have hk : ∀ k ∈ k0 :: ks, ∀ c ∈ k.data, c ≠ ',' := by
      intro k hk
      exact hlabels k (mem_sortStrings.mp (by rw [hsorted]; exact hk))
    have hline : doc.ID ++ "\t" ++ ", ".intercalate (k0 :: ks) ++ "\n" =
        String.mk (doc.ID.data ++ '\t' ::
          ((k0.data ++ (ks.map (fun a => ", ".data ++ a.data)).flatten) ++ ['\n'])) := by
      apply String.ext
      simp [String.intercalate, intercalate_go_data]
    rw [hline, secondColumn_line _ _ hid]
    exact splitComma_joined ks (fun k hk1 => hk k (List.mem_cons_of_mem _ hk1)) k0.data
      (hk k0 (List.mem_cons_self _ _))


/-! ## Reading in batches: what span-export forwards -/

theorem readString_terminated (r rest : List Char) (hr : ∀ c ∈ r, c ≠ '\n') :
    readString (r ++ '\n' :: rest) = some (r ++ ['\n'], rest) := by
  induction r with
  | nil => simp [readString]
  | cons x xs ih =>
    have hx : x ≠ '\n' := hr x (List.mem_cons_self _ _)
    rw [List.cons_append, readString, if_neg hx,
      ih (fun c hc => hr c (List.mem_cons_of_mem _ hc))]
    rfl

theorem readString_unterminated (tail : List Char) (ht : ∀ c ∈ tail, c ≠ '\n') :
    readString tail = none := by
  induction tail with
  | nil => rfl
  | cons x xs ih =>
    have hx : x ≠ '\n' := ht x (List.mem_cons_self _ _)
    rw [readString, if_neg hx, ih (fun c hc => ht c (List.mem_cons_of_mem _ hc))]

theorem exportReadLoop_records (size : Nat) (hsize : size ≠ 0) (recs : List (List Char))
    (tail : List Char) (hrecs : ∀ r ∈ recs, ∀ c ∈ r, c ≠ '\n') (htail : ∀ c ∈ tail, c ≠ '\n') :
    ∀ (fuel : Nat) (st : ExportState), recs.length ≤ fuel →
      ∃ st1, exportReadLoop size fuel ((recs.map (fun r => r ++ ['\n'])).flatten ++ tail) st =
          .ok st1 ∧
        st1.queue.flatten ++ st1.batch =
          st.queue.flatten ++ st.batch ++ recs.map (fun r => String.mk (r ++ ['\n'])) := by
  induction recs with
  | nil =>
    intro fuel st _
    refine ⟨st, ?_, by simp⟩
    cases fuel with
    | zero => rfl
    | succ k =>
      simp only [List.map_nil, List.flatten_nil, List.nil_append, exportReadLoop,
        readString_unterminated tail htail]
  | cons r rest ih =>
    intro fuel st hfuel
    cases fuel with
    | zero => simp at hfuel
    | succ k =>
      have hk : rest.length ≤ k := by simpa using hfuel
      have hread : readString ((((r :: rest).map (fun r => r ++ ['\n'])).flatten) ++ tail) =
          some (r ++ ['\n'], (rest.map (fun r => r ++ ['\n'])).flatten ++ tail) := by
        have := readString_terminated r ((rest.map (fun r => r ++ ['\n'])).flatten ++ tail)
          (hrecs r (List.mem_cons_self _ _))
        simpa [List.append_assoc] using this
      have hrest : ∀ x ∈ rest, ∀ c ∈ x, c ≠ '\n' :=
        fun x hx => hrecs x (List.mem_cons_of_mem _ hx)
      rw [exportReadLoop, hread]
      simp only [if_neg hsize]
      split_ifs
      · obtain ⟨st1, h1, h2⟩ := ih hrest k
          { queue := st.queue ++ [st.batch ++ [String.mk (r ++ ['\n'])]], batch := [],
            i := st.i + 1 } hk
        exact ⟨st1, h1, by simp [h2, List.append_assoc]⟩
      · obtain ⟨st1, h1, h2⟩ := ih hrest k
          { st with batch := st.batch ++ [String.mk (r ++ ['\n'])], i := st.i + 1 } hk
        exact ⟨st1, h1, by simp [h2, List.append_assoc]⟩

theorem exportBatches_forwards_terminated (size : Nat) (hsize : size ≠ 0)
    (recs : List (List Char)) (tail : List Char)
    (hrecs : ∀ r ∈ recs, ∀ c ∈ r, c ≠ '\n') (htail : ∀ c ∈ tail, c ≠ '\n') :
    ∃ bs, exportBatches size [String.mk ((recs.map (fun r => r ++ ['\n'])).flatten ++ tail)] =
        .ok bs ∧
      bs.flatten = recs.map (fun r => String.mk (r ++ ['\n'])) := by
  have hlen : recs.length ≤
      ((recs.map (fun r => r ++ ['\n'])).flatten ++ tail).length := by
    have : ∀ l : List (List Char), l.length ≤ (l.map (fun r => r ++ ['\n'])).flatten.length := by
      intro l
      induction l with
      | nil => simp
      | cons x xs ih => simp only [List.map_cons, List.flatten_cons, List.length_append,
          List.length_cons, List.length_nil]; omega
    rw [List.length_append]
    exact le_trans (this recs) (Nat.le_add_right _ _)
  obtain ⟨st1, h1, h2⟩ := exportReadLoop_records size hsize recs tail hrecs htail _
    { queue := [], batch := [], i := 0 } hlen
  refine ⟨st1.queue ++ [st1.batch], ?_, ?_⟩
  · simp only [exportBatches, exportReaders, h1]
  · simpa using h2

/-! ## The statements of the second part on the sample data -/

theorem populate_fetches_once_witness :
    (HFCache.populate sampleEnv sampleWorld ⟨[]⟩ "http://h/ok").world.fetched =
      [] ++ ["http://h/ok"] ∧
    HFCache.populate sampleEnv
      (populateAll sampleEnv (HFCache.populate sampleEnv sampleWorld ⟨[]⟩ "http://h/ok").world
        (HFCache.populate sampleEnv sampleWorld ⟨[]⟩ "http://h/ok").cache ["http://h/down"]).1
      (populateAll sampleEnv (HFCache.populate sampleEnv sampleWorld ⟨[]⟩ "http://h/ok").world
        (HFCache.populate sampleEnv sampleWorld ⟨[]⟩ "http://h/ok").cache ["http://h/down"]).2
      "http://h/ok" =
      ⟨(populateAll sampleEnv (HFCache.populate sampleEnv sampleWorld ⟨[]⟩ "http://h/ok").world
        (HFCache.populate sampleEnv sampleWorld ⟨[]⟩ "http://h/ok").cache ["http://h/down"]).1,
        (populateAll sampleEnv (HFCache.populate sampleEnv sampleWorld ⟨[]⟩ "http://h/ok").world
          (HFCache.populate sampleEnv sampleWorld ⟨[]⟩ "http://h/ok").cache ["http://h/down"]).2,
        .ok ()⟩ :=
  ⟨rfl,
    ((populate_fetches_once sampleEnv sampleWorld ⟨[]⟩ "http://h/ok").2 rfl ["http://h/down"]
      (sampleDoc "49" ["ColA"]) sampleEnv).1⟩

theorem caches_append_only_witness :
    ∀ k v, sampleOpened.cache.get? k = some v →
      (sampleOpened.matchingRows sampleWorld (sampleDoc "5" ["ColB"])).labeler.cache.get? k =
        some v :=
  (caches_append_only sampleEnv sampleWorld sampleOpened (sampleDoc "5" ["ColB"]) ⟨[]⟩
    "http://h/ok").1

theorem DroppableLabels_spec_witness :
    ∃ out, DroppableLabels (sampleFlags false) (sampleSolr [⟨"ai-85-1", ["X", "Y"], "85"⟩])
        (sampleTagged "ai-105-1" "105" ["Z", "X"]) = .ok out ∧ "X" ∈ out :=
  match DroppableLabels_spec (sampleFlags false) (sampleSolr [⟨"ai-85-1", ["X", "Y"], "85"⟩])
    (sampleTagged "ai-105-1" "105" ["Z", "X"]) "body" ⟨[⟨"ai-85-1", ["X", "Y"], "85"⟩]⟩
    (by decide) rfl rfl with
  | ⟨out, h, _, h105, _⟩ =>
    ⟨out, h, h105 rfl rfl "X" (by decide)
      ⟨⟨"ai-85-1", ["X", "Y"], "85"⟩, by decide, by decide, rfl, by decide⟩⟩

theorem DroppableLabels_same_identifier_witness :
    ∃ out, DroppableLabels (sampleFlags false) (sampleSolr [⟨"ai-49-1", ["X"], "49"⟩])
        (sampleTagged "ai-49-1" "49" ["X"]) = .ok out ∧ "X" ∈ out :=
  (DroppableLabels_same_identifier (sampleFlags false) (sampleSolr [⟨"ai-49-1", ["X"], "49"⟩])
    (sampleTagged "ai-49-1" "49" ["X"])).2 rfl "body" ⟨[⟨"ai-49-1", ["X"], "49"⟩]⟩
    ⟨"ai-49-1", ["X"], "49"⟩ "X" (by decide) rfl rfl (by decide) rfl rfl (by decide) (by decide)

theorem preferencePosition_spec_witness :
    "105" ∈ stringsFields (sampleFlags false).prefs ∧
    "7" ∉ stringsFields (sampleFlags false).prefs ∧
    preferencePosition (sampleFlags false) "7" > preferencePosition (sampleFlags false) "105" :=
  ⟨by decide, by decide,
    (preferencePosition_spec (sampleFlags false) "105" "7" (by decide) (by decide)).2.2.2
      (by decide)⟩

theorem Label_line_format_witness :
    (sampleLabeler.Label sampleEnv sampleWorld (sampleDoc "5" ["ColB", "ColA"])).world.stdout =
      [] ++ ["id-5" ++ "\t" ++ ", ".intercalate (sortStrings ["DE-14", "DE-15"]) ++ "\n"] :=
  (Label_line_format sampleEnv sampleWorld sampleLabeler (sampleDoc "5" ["ColB", "ColA"])
    [scanRow (amslAttach "DE-15" "ColA"), scanRow (amslAttach "DE-14" "ColB")]
    ((sampleLabeler.openDb sampleEnv).1.matchingRows sampleWorld
      (sampleDoc "5" ["ColB", "ColA"])).world
    ⟨[]⟩ ["DE-14", "DE-15"] rfl rfl rfl).1

/-- C18 as stated fails: for the record of source 5 with the two attached codes
DE-14 and DE-15, Label prints a comma and a blank between them, and splitting
the second column on "," yields "DE-14" and " DE-15". -/
theorem Label_line_comma_blank :
    (sampleLabeler.Label sampleEnv sampleWorld (sampleDoc "5" ["ColB", "ColA"])).world.stdout =
      ["id-5\tDE-14, DE-15\n"] ∧
    "id-5\tDE-14, DE-15\n" ≠ "id-5\tDE-14,DE-15\n" ∧
    (splitComma (secondColumn "id-5\tDE-14, DE-15\n")).map String.mk = ["DE-14", " DE-15"] ∧
    (splitComma (secondColumn "id-5\tDE-14, DE-15\n")).map String.mk ≠ ["DE-14", "DE-15"] := by
  decide

/-- C16 on the code: with batch size 2 and the input of the three records "a",
"b" and a final "c" without newline, the batches on the queue hold "a" and
"b"; the record "c" is on no batch. -/
theorem exportBatches_drops_unterminated_record :
    exportBatches 2 ["a\nb\nc"] = .ok [["a\n"], ["b\n"]] ∧
    exportBatches 1 ["a\nb\nc"] = .ok [["a\n"], ["b\n"], []] ∧
    exportBatches 2 ["a\nb\nc\n"] = .ok [["a\n"], ["b\n", "c\n"], []] := by
  decide

/-- C17 on the code: with batch size 2 and five input lines, the first batch
sent holds four elements, two of them empty strings that are no input line,
and the batches after it hold one line each. -/
theorem spanBatches_not_fixed_size :
    spanBatches 2 "a\nb\nc\nd\ne\n" =
      [["", "", "a\n", "b\n"], ["c\n"], ["d\n"], ["e\n"], []] ∧
    spanBatches 1 "a\nb\nc\n" = [["", "a\n"], ["b\n", "c\n"]] := by
  decide

/-- C19 on the code: after Label the record with collections ColB, ColA holds
them in the order ColA, ColB. -/
theorem Label_sorts_collections_of_record :
    (sampleDoc "5" ["ColB", "ColA"]).MegaCollections = ["ColB", "ColA"] ∧
    (sampleLabeler.Label sampleEnv sampleWorld (sampleDoc "5" ["ColB", "ColA"])).out = .ok () ∧
    (sampleLabeler.Label sampleEnv sampleWorld
      (sampleDoc "5" ["ColB", "ColA"])).doc.MegaCollections = ["ColA", "ColB"] ∧
    (sampleLabeler.Label sampleEnv sampleWorld (sampleDoc "5" ["ColB", "ColA"])).doc ≠
      sampleDoc "5" ["ColB", "ColA"] := by
  decide

/-- C20 on the code: the record without collections gets no rule from a fresh
labeler and the rule of DE-14 from a labeler that has processed the record with
the empty collection name; labelling the two records in the two orders prints
different label lists for it. -/
theorem matchingRows_depends_on_cache :
    (sampleOpened.matchingRows sampleWorld sampleNoCollection).out = .ok [] ∧
    ((sampleOpened.matchingRows sampleWorld sampleEmptyName).labeler.matchingRows
      (sampleOpened.matchingRows sampleWorld sampleEmptyName).world sampleNoCollection).out =
      .ok [scanRow amslPlain] ∧
    ((sampleLabeler.Label sampleEnv sampleWorld sampleEmptyName).labeler.Label sampleEnv
      (sampleLabeler.Label sampleEnv sampleWorld sampleEmptyName).world
      sampleNoCollection).world.stdout = ["rec-a\tDE-14\n", "rec-b\tDE-14\n"] ∧
    ((sampleLabeler.Label sampleEnv sampleWorld sampleNoCollection).labeler.Label sampleEnv
      (sampleLabeler.Label sampleEnv sampleWorld sampleNoCollection).world
      sampleEmptyName).world.stdout = ["rec-b\t\n", "rec-a\tDE-14\n"] := by
  decide


/-! ## Coverage of a document by an entitlement -/

theorem CoveredBy_passes_tests :
    ∀ t ∈ coveredByTests, Document.CoveredBy sampleClock t.1 t.2.1 = t.2.2 := by
  decide

theorem coveredFrom_year_only (doc : Document) (e : Entitlement) (Y : Int)
    (hyear : doc.year = some Y) (hvol : e.FromVolume = 0) :
    coveredFrom doc e =
      if e.FromYear ≠ 0 ∧ e.FromYear > Y then
        some ("from-year " ++ toString e.FromYear ++ " > " ++ toString Y)
      else none := by
  unfold coveredFrom
  rw [hyear]
  simp only [hvol]
  by_cases h0 : e.FromYear = 0
  · simp [h0]
  · by_cases h1 : e.FromYear > Y
    · simp [h0, h1]
    · simp [h0, h1]

theorem coveredTo_year_only (doc : Document) (e : Entitlement) (Y : Int)
    (hyear : doc.year = some Y) (hvol : e.ToVolume = 0) :
    coveredTo doc e =
      if e.ToYear ≠ 0 ∧ e.ToYear < Y then
        some ("to-year " ++ toString e.ToYear ++ " < " ++ toString Y)
      else none := by
  unfold coveredTo
  rw [hyear]
  simp only [hvol]
  by_cases h0 : e.ToYear = 0
  · simp [h0]
  · by_cases h1 : e.ToYear < Y
    · simp [h0, h1]
    · simp [h0, h1]

/-- C21: an entitlement with year bounds only.  For an entitlement without
volume bounds and without FromDelay and a document with an issue date in year
Y, whatever its volume and issue, CoveredBy returns the nil error exactly when
FromYear is absent or at most Y and ToYear is absent or at least Y; otherwise
it returns "from-year FromYear > Y" when the lower bound fails and
"to-year ToYear < Y" when only the upper bound fails. -/
theorem CoveredBy_year_bounds (clock : Clock) (doc : Document) (e : Entitlement) (Y : Int)
    (hyear : doc.year = some Y)
    (hfromVolume : e.FromVolume = 0) (htoVolume : e.ToVolume = 0)
    (hdelay : e.FromDelay = "") :
    (doc.CoveredBy clock e = none ↔
      (e.FromYear = 0 ∨ e.FromYear ≤ Y) ∧ (e.ToYear = 0 ∨ Y ≤ e.ToYear)) ∧
    (e.FromYear ≠ 0 ∧ e.FromYear > Y →
      doc.CoveredBy clock e =
        some ("from-year " ++ toString e.FromYear ++ " > " ++ toString Y)) ∧
    (¬ (e.FromYear ≠ 0 ∧ e.FromYear > Y) → e.ToYear ≠ 0 ∧ e.ToYear < Y →
      doc.CoveredBy clock e =
        some ("to-year " ++ toString e.ToYear ++ " < " ++ toString Y)) := by
  have hwall : movingWall clock doc e = none := by simp [movingWall, hdelay]
  have hcov : doc.CoveredBy clock e =
      if e.FromYear ≠ 0 ∧ e.FromYear > Y then
        some ("from-year " ++ toString e.FromYear ++ " > " ++ toString Y)
      else if e.ToYear ≠ 0 ∧ e.ToYear < Y then
        some ("to-year " ++ toString e.ToYear ++ " < " ++ toString Y)
      else none := by
    unfold Document.CoveredBy
    rw [coveredFrom_year_only doc e Y hyear hfromVolume,
      coveredTo_year_only doc e Y hyear htoVolume, hwall]
    by_cases h1 : e.FromYear ≠ 0 ∧ e.FromYear > Y
    · rw [if_pos h1, if_pos h1]
    · rw [if_neg h1, if_neg h1]
      by_cases h2 : e.ToYear ≠ 0 ∧ e.ToYear < Y
      · rw [if_pos h2]
      · rw [if_neg h2]
  refine ⟨?_, ?_, ?_⟩
  · rw [hcov]
    by_cases h1 : e.FromYear ≠ 0 ∧ e.FromYear > Y
    · rw [if_pos h1]
      constructor
      · intro h; cases h
      · rintro ⟨hf, _⟩
        rcases hf with hf | hf
        · exact absurd hf h1.1
        · omega
    · rw [if_neg h1]
      by_cases h2 : e.ToYear ≠ 0 ∧ e.ToYear < Y
      · rw [if_pos h2]
        constructor
        · intro h; cases h
        · rintro ⟨_, ht⟩
          rcases ht with ht | ht
          · exact absurd ht h2.1
          · omega
      · rw [if_neg h2]
        refine ⟨fun _ => ⟨?_, ?_⟩, fun _ => rfl⟩
        · by_cases h0 : e.FromYear = 0
          · left; exact h0
          · right
            by_contra hgt
            exact h1 ⟨h0, by omega⟩
        · by_cases h0 : e.ToYear = 0
          · left; exact h0
          · right
            by_contra hgt
            exact h2 ⟨h0, by omega⟩
  · intro h1
    rw [hcov, if_pos h1]
  · intro h1 h2
    rw [hcov, if_neg h1, if_pos h2]

/-- C22: the moving wall.  For a document dated D and an entitlement with a
FromDelay that the clock resolves to a boundary (the current date shifted by
the delay): if D is later than the boundary, CoveredBy reports the document
not covered, with "moving-wall violation" whenever the static bounds are met;
if D is not later than the boundary, CoveredBy returns what it returns for the
entitlement without the delay. -/
theorem CoveredBy_moving_wall (clock : Clock) (doc : Document) (e : Entitlement)
    (D boundary : Date)
    (hdate : doc.date = some D)
    (hdelay : e.FromDelay ≠ "")
    (hshift : clock.shift clock.now e.FromDelay = .ok boundary) :
    (D.after boundary = true →
      doc.CoveredBy clock e ≠ none ∧
      (doc.CoveredBy clock { e with FromDelay := "" } = none →
        doc.CoveredBy clock e = some "moving-wall violation")) ∧
    (D.after boundary = false →
      doc.CoveredBy clock e = doc.CoveredBy clock { e with FromDelay := "" }) := by
  have hfrom : coveredFrom doc { e with FromDelay := "" } = coveredFrom doc e := rfl
  have hto : coveredTo doc { e with FromDelay := "" } = coveredTo doc e := rfl
  have hnone : movingWall clock doc { e with FromDelay := "" } = none := by
    simp [movingWall]
  have hwall : movingWall clock doc e =
      if D.after boundary then some "moving-wall violation" else none := by
    simp [movingWall, hdelay, hshift, hdate]
  constructor
  · intro hafter
    rw [hwall, if_pos hafter] at *
    unfold Document.CoveredBy
    rw [hfrom, hto, hnone]
    have hw : movingWall clock doc e = some "moving-wall violation" := by
      simp [movingWall, hdelay, hshift, hdate, hafter]
    rw [hw]
    cases coveredFrom doc e with
    | some m => simp
    | none =>
      cases coveredTo doc e with
      | some m => simp
      | none => simp
  · intro hafter
    unfold Document.CoveredBy
    rw [hfrom, hto, hnone, hwall]
    simp [hafter]


/-! ## String sets and the package filter -/

theorem addItems_made (items : List String) :
    ∀ keys : List String, ∃ keys1, addItems ⟨some keys⟩ items = .ok ⟨some keys1⟩ ∧
      ∀ x, x ∈ keys1 ↔ x ∈ keys ∨ x ∈ items := by
  induction items with
  | nil => intro keys; exact ⟨keys, rfl, fun x => by simp⟩
  | cons item rest ih =>
    intro keys
    obtain ⟨keys1, h1, hmem⟩ := ih (keys.insert item)
    refine ⟨keys1, ?_, ?_⟩
    · simp only [addItems, StringSet.Add]
      exact h1
    · intro x
      rw [hmem, List.mem_insert_iff, List.mem_cons]
      constructor
      · rintro ((h | h) | h)
        · right; left; exact h
        · left; exact h
        · right; right; exact h
      · rintro (h | h | h)
        · left; right; exact h
        · left; left; exact h
        · right; exact h

theorem NewStringSet_made (items : List String) :
    ∃ keys, NewStringSet items = .ok ⟨some keys⟩ ∧ ∀ x, x ∈ keys ↔ x ∈ items := by
  obtain ⟨keys, h, hmem⟩ := addItems_made items []
  exact ⟨keys, h, fun x => by rw [hmem]; simp⟩

/-- C24, amended: StringSet.Add on a set whose map has been made.  NewStringSet
returns such a set, and so does every Add that returns.  On such a set Add
returns, and it returns true exactly when the string was no member before;
afterwards the string is a member and the membership of every other string is
as before; Size has grown by one when true was returned, and the set is
unchanged when false was returned. -/
theorem StringSet_Add_spec (set : StringSet) (s : String) (hmade : set.set ≠ none) :
    (∀ items, ∃ made, NewStringSet items = .ok made ∧ made.set ≠ none) ∧
    ∃ after added, set.Add s = .ok (after, added) ∧
      after.set ≠ none ∧
      (added = true ↔ set.Contains s = false) ∧
      after.Contains s = true ∧
      (∀ t, t ≠ s → after.Contains t = set.Contains t) ∧
      (added = true → after.Size = set.Size + 1) ∧
      (added = false → after = set ∧ after.Size = set.Size) := by
  refine ⟨?_, ?_⟩
  · intro items
    obtain ⟨keys, h, _⟩ := NewStringSet_made items
    exact ⟨⟨some keys⟩, h, by simp⟩
  · obtain ⟨set0⟩ := set
    cases set0 with
    | none => exact absurd rfl hmade
    | some keys =>
      refine ⟨⟨some (keys.insert s)⟩, !decide (s ∈ keys), rfl, by simp, ?_⟩
      by_cases h : s ∈ keys
      · have hins : keys.insert s = keys := List.insert_of_mem h
        refine ⟨?_, ?_, ?_, ?_, ?_⟩
        · simp [StringSet.Contains, h]
        · simp [StringSet.Contains]
        · intro t _
          simp [StringSet.Contains, hins]
        · simp [h]
        · intro _
          simp [StringSet.Size, hins]
      · have hlen : (keys.insert s).length = keys.length + 1 := List.length_insert_of_not_mem h
        refine ⟨?_, ?_, ?_, ?_, ?_⟩
        · simp [StringSet.Contains, h]
        · simp [StringSet.Contains]
        · intro t ht
          simp [StringSet.Contains, List.mem_insert_iff, ht]
        · intro _
          simp [StringSet.Size, hlen]
        · simp [h]

/-- C24 as stated fails: on the zero value of StringSet, whose map is nil, the
string is no member before the call, yet Add does not return true: the
assignment to the nil map panics, and nothing becomes a member. -/
theorem StringSet_Add_zero_value_panics :
    (⟨none⟩ : StringSet).Contains "a" = false ∧
    (⟨none⟩ : StringSet).Size = 0 ∧
    (⟨none⟩ : StringSet).Add "a" = .panic ∧
    ∀ r, (⟨none⟩ : StringSet).Add "a" ≠ .ok r := by
  refine ⟨rfl, rfl, rfl, ?_⟩
  intro r h
  cases h

theorem decodeStringItems_strs (ps : List String) :
    decodeStringItems (ps.map Json.str) = .ok ps := by
  induction ps with
  | nil => rfl
  | cons p rest ih => simp [decodeStringItems, ih]

theorem UnmarshalJSON_packageFragment (ps : List String) :
    ∃ keys, PackageFilter.UnmarshalJSON (packageFragment ps) = .ok ⟨⟨some keys⟩⟩ ∧
      ∀ x, x ∈ keys ↔ x ∈ ps := by
  have hkey : isPackageKey "package" = true := by decide
  obtain ⟨keys, h, hmem⟩ := NewStringSet_made ps
  refine ⟨keys, ?_, hmem⟩
  simp [PackageFilter.UnmarshalJSON, packageFragment, decodePackages, decodePackageFields,
    hkey, decodeStrings, decodeStringItems_strs, h]

theorem applyPackages_iff (keys : List String) (pkgs : List String) :
    applyPackages ⟨some keys⟩ pkgs = true ↔ ∃ pkg ∈ pkgs, pkg ∈ keys := by
  induction pkgs with
  | nil => simp [applyPackages]
  | cons pkg rest ih =>
    unfold applyPackages
    by_cases h : pkg ∈ keys
    · simp [StringSet.Contains, h]
    · simp [StringSet.Contains, h, ih]

/-- C25: the package filter.  Decoding the fragment with package names
p1..pn succeeds, and the filter accepts a record exactly when one of the
record's package names is among p1..pn; a record without packages is not
accepted. -/
theorem PackageFilter_accepts (ps : List String) (rec : IntermediateSchema) :
    ∃ f, PackageFilter.UnmarshalJSON (packageFragment ps) = .ok f ∧
      (f.Apply rec = true ↔ ∃ pkg ∈ rec.Packages, pkg ∈ ps) ∧
      (rec.Packages = [] → f.Apply rec = false) := by
  obtain ⟨keys, hf, hmem⟩ := UnmarshalJSON_packageFragment ps
  refine ⟨⟨⟨some keys⟩⟩, hf, ?_, ?_⟩
  · unfold PackageFilter.Apply
    rw [applyPackages_iff]
    simp only [hmem]
  · intro h
    simp [PackageFilter.Apply, h, applyPackages]

theorem marshalJSON_empty (f : PackageFilter) : PackageFilter.marshalJSON f = .obj [] := by
  have h : isExported "values" = false := by decide
  simp [PackageFilter.marshalJSON, marshalStruct, h]

theorem UnmarshalJSON_empty :
    PackageFilter.UnmarshalJSON (.obj []) = .ok ⟨⟨some []⟩⟩ := by
  rfl

theorem applyPackages_none (pkgs : List String) : applyPackages ⟨some []⟩ pkgs = false := by
  induction pkgs with
  | nil => rfl
  | cons pkg rest ih => simp [applyPackages, StringSet.Contains, ih]

/-- C26, amended: a package filter is not written back with its package names.
For every package filter decoded from a configuration fragment with package
names p1..pn, json.Marshal, the call of the tagger dump, gives the empty
object, whatever the names: the one field of the type is not exported and the
type has no MarshalJSON method.  Decoding the result again succeeds and yields
the filter without package names, which accepts no record; so it accepts the
same records as the first filter only when that one accepted none. -/
theorem PackageFilter_round_trip_drops_packages (ps : List String) :
    ∃ f g, PackageFilter.UnmarshalJSON (packageFragment ps) = .ok f ∧
      PackageFilter.marshalJSON f = .obj [] ∧
      PackageFilter.UnmarshalJSON (PackageFilter.marshalJSON f) = .ok g ∧
      g.values.Size = 0 ∧
      (∀ x, g.values.Contains x = false) ∧
      (∀ rec, g.Apply rec = false) ∧
      ((∀ rec, g.Apply rec = f.Apply rec) ↔ ∀ rec, f.Apply rec = false) := by
  obtain ⟨keys, hf, _⟩ := UnmarshalJSON_packageFragment ps
  have hg : ∀ rec, PackageFilter.Apply ⟨⟨some []⟩⟩ rec = false :=
    fun rec => applyPackages_none rec.Packages
  refine ⟨⟨⟨some keys⟩⟩, ⟨⟨some []⟩⟩, hf, marshalJSON_empty _, ?_, rfl, ?_, hg, ?_⟩
  · rw [marshalJSON_empty]
    exact UnmarshalJSON_empty
  · intro x
    simp [StringSet.Contains]
  · constructor
    · intro h rec
      rw [← h rec]
      exact hg rec
    · intro h rec
      rw [h rec]
      exact hg rec

/-- C26 as stated fails: the filter decoded from the fragment with package "p"
accepts a record of package "p"; serialised with json.Marshal it is the empty
object, and the filter decoded from that holds no package name and rejects the
record. -/
theorem PackageFilter_round_trip_loses_package :
    PackageFilter.UnmarshalJSON (packageFragment ["p"]) = .ok ⟨⟨some ["p"]⟩⟩ ∧
    PackageFilter.Apply ⟨⟨some ["p"]⟩⟩ { sampleDoc "1" [] with Packages := ["p"] } = true ∧
    PackageFilter.marshalJSON ⟨⟨some ["p"]⟩⟩ = .obj [] ∧
    PackageFilter.UnmarshalJSON (PackageFilter.marshalJSON ⟨⟨some ["p"]⟩⟩) = .ok ⟨⟨some []⟩⟩ ∧
    StringSet.Contains ⟨some ["p"]⟩ "p" = true ∧
    StringSet.Contains ⟨some []⟩ "p" = false ∧
    PackageFilter.Apply ⟨⟨some []⟩⟩ { sampleDoc "1" [] with Packages := ["p"] } = false :=
  ⟨by decide, by decide, rfl, by decide, by decide, by decide, by decide⟩

/-! ## jats: the page count -/

/-- C27 on the code: for the pages 329 to 332 PageCount returns "3", not the
four pages 329, 330, 331, 332; for a single page it returns the empty string;
for a page that is no integer it returns the empty string. -/
theorem PageCount_is_difference :
    JatsArticle.PageCount ⟨"329", "332"⟩ = "3" ∧
    JatsArticle.PageCount ⟨"7", "7"⟩ = "" ∧
    JatsArticle.PageCount ⟨"1", "2"⟩ = "1" ∧
    JatsArticle.PageCount ⟨"iv", "9"⟩ = "" := by
  decide

/-! ## The cache keys of span-tagger and span-attach -/

/-- C29 on the code: records with different collection lists, and with
different source ids, get the same key. -/
theorem cacheKey_collides :
    (cacheKey (sampleDoc "1" ["a@b"])).1 = (cacheKey (sampleDoc "1" ["a", "b"])).1 ∧
    ¬ (sampleDoc "1" ["a@b"]).MegaCollections.Perm (sampleDoc "1" ["a", "b"]).MegaCollections ∧
    (cacheKey (sampleDoc "1@a" ["b"])).1 = (cacheKey (sampleDoc "1" ["a", "b"])).1 ∧
    (sampleDoc "1@a" ["b"]).SourceID ≠ (sampleDoc "1" ["a", "b"]).SourceID ∧
    (cacheKey sampleEmptyName).1 = (cacheKey sampleNoCollection).1 ∧
    ¬ sampleEmptyName.MegaCollections.Perm sampleNoCollection.MegaCollections ∧
    ((sampleOpened.matchingRows sampleWorld sampleEmptyName).labeler.matchingRows
      (sampleOpened.matchingRows sampleWorld sampleEmptyName).world sampleNoCollection).out =
      .ok [scanRow amslPlain] := by
  decide

theorem Attach_cacheKey_of_sorted (doc : IntermediateSchema)
    (h : sortStrings doc.MegaCollections = doc.MegaCollections) :
    Attach.cacheKey doc = (cacheKey doc).1 := by
  simp only [Attach.cacheKey, cacheKey, h]

/-- C30 on the code: for the record with collections ColB, ColA span-attach
builds the key from the collections as they stand, span-tagger from the sorted
collections. -/
theorem Attach_cacheKey_differs :
    Attach.cacheKey (sampleDoc "5" ["ColB", "ColA"]) = "5@ColB@ColA" ∧
    (cacheKey (sampleDoc "5" ["ColB", "ColA"])).1 = "5@ColA@ColB" ∧
    Attach.cacheKey (sampleDoc "5" ["ColB", "ColA"]) ≠
      (cacheKey (sampleDoc "5" ["ColB", "ColA"])).1 ∧
    Attach.cacheKey (sampleDoc "5" ["ColB", "ColA"]) ≠
      Attach.cacheKey (sampleDoc "5" ["ColA", "ColB"]) := by
  decide


/-! ## The label list of Label -/

theorem labelRows_keys {ε : Type} (env : Env ε) (doc : IntermediateSchema) (rows : List ConfigRow) :
    ∀ (w : World) (c : HFCache ε) (labels out : List String),
      labels.Nodup →
      (labelRows env doc w c labels rows).out = .ok out →
      out.Nodup ∧ ∀ k ∈ out, k ∈ labels ∨ ∃ row ∈ rows, row.ISIL = k := by
  induction rows with
  | nil =>
    intro w c labels out hnd h
    simp only [labelRows, Outcome.ok.injEq] at h
    subst h
    exact ⟨hnd, fun k hk => Or.inl hk⟩
  | cons r rest ih =>
    intro w c labels out hnd h
    have hstep : ∀ (w1 : World) (c1 : HFCache ε) (labels1 : List String), labels1.Nodup →
        (∀ k ∈ labels1, k ∈ labels ∨ k = r.ISIL) →
        (labelRows env doc w1 c1 labels1 rest).out = .ok out →
        out.Nodup ∧ ∀ k ∈ out, k ∈ labels ∨ ∃ row ∈ r :: rest, row.ISIL = k := by
      intro w1 c1 labels1 hnd1 hsub h1
      obtain ⟨ha, hb⟩ := ih w1 c1 labels1 out hnd1 h1
      refine ⟨ha, fun k hk => ?_⟩
      rcases hb k hk with h2 | ⟨row, hrow, hisil⟩
      · rcases hsub k h2 with h3 | h3
        · left; exact h3
        · right; exact ⟨r, List.mem_cons_self _ _, h3.symm⟩
      · right; exact ⟨row, List.mem_cons_of_mem _ hrow, hisil⟩
    have hins : ∀ k ∈ labels.insert r.ISIL, k ∈ labels ∨ k = r.ISIL := by
      intro k hk
      rcases List.mem_insert_iff.mp hk with h1 | h1
      · right; exact h1
      · left; exact h1
    by_cases h1 : r.EvaluateHoldingsFileForLibrary = "no" ∧ r.LinkToHoldingsFile ≠ ""
    · rw [labelRows_reject_step env doc w c labels r rest h1.1 h1.2] at h
      simp at h
    by_cases h2 : r.EvaluateHoldingsFileForLibrary = "yes" ∧ r.LinkToHoldingsFile ≠ ""
    · rw [labelRows_holdings_step env doc w c labels r rest h2.1 h2.2] at h
      rcases hc : HFCache.Covers env w c r.LinkToHoldingsFile doc with ⟨w1, c1, o⟩
      rw [hc] at h
      cases o with
      | err e => simp at h
      | panic => simp at h
      | ok b =>
        simp only at h
        cases b with
        | false => exact hstep w1 c1 labels hnd (fun k hk => Or.inl hk) (by simpa using h)
        | true => exact hstep w1 c1 _ (hnd.insert) hins (by simpa using h)
    by_cases h3 : r.EvaluateHoldingsFileForLibrary = "no"
    · have hl : r.LinkToHoldingsFile = "" := by
        by_contra hne
        exact h1 ⟨h3, hne⟩
      rw [labelRows_plain_step env doc w c labels r rest h3 hl] at h
      exact hstep w c _ (hnd.insert) hins h
    by_cases h4 : r.ContentFileURI ≠ ""
    · simp only [labelRows, h1, h2, h3, h4, if_false, if_true, ne_eq, not_false_eq_true] at h
      exact hstep w c labels hnd (fun k hk => Or.inl hk) h
    · simp only [labelRows, h1, h2, h3, h4, if_false] at h
      simp at h

/-- C28: the label list Label prints.  When Label has gone through the rules
returned by matchingRows with label set `labels`, the list it prints is
pairwise strictly ascending in the order of sort.Strings (ascending and free of
duplicates, however many rules name the same institution), and each of its
elements is the ISIL of one of the rules. -/
theorem Label_keys_strictly_ascending {ε : Type} (env : Env ε) (w : World) (l : Labeler ε)
    (doc : IntermediateSchema) (rows : List ConfigRow) (w2 : World) (c2 : HFCache ε)
    (labels : List String)
    (hopen : (l.openDb env).2 = none)
    (hrows : ((l.openDb env).1.matchingRows w doc).out = .ok rows)
    (hloop : labelRows env (cacheKey doc).2 ((l.openDb env).1.matchingRows w doc).world
      ((l.openDb env).1.matchingRows w doc).labeler.hfcache [] rows = ⟨w2, c2, .ok labels⟩) :
    (l.Label env w doc).out = .ok () ∧
    (l.Label env w doc).world.stdout = w.stdout ++ [labelLine doc (sortStrings labels)] ∧
    (sortStrings labels).Pairwise (fun a b => strLe a b ∧ a ≠ b) ∧
    (∀ k ∈ sortStrings labels, ∃ row ∈ rows, row.ISIL = k) := by
  have hst := labelRows_stdout env (cacheKey doc).2 rows
    ((l.openDb env).1.matchingRows w doc).world
    ((l.openDb env).1.matchingRows w doc).labeler.hfcache []
  rw [matchingRows_stdout, hloop] at hst
  simp only at hst
  have hkeys := labelRows_keys env (cacheKey doc).2 rows
    ((l.openDb env).1.matchingRows w doc).world
    ((l.openDb env).1.matchingRows w doc).labeler.hfcache [] labels List.nodup_nil
    (by rw [hloop])
  refine ⟨?_, ?_, ?_, ?_⟩
  · rw [Label_eq env w l doc rows hopen hrows, hloop]
  · rw [Label_eq env w l doc rows hopen hrows, hloop]
    simp [hst]
  · have hnd : (sortStrings labels).Nodup := (sortStrings_perm labels).nodup_iff.mpr hkeys.1
    exact List.Pairwise.and (sortStrings_sorted labels) hnd
  · intro k hk
    rcases hkeys.2 k (mem_sortStrings.mp hk) with h | h
    · exact absurd h (List.not_mem_nil _)
    · exact h

/-! ## The statements of the third part on the sample data -/

theorem CoveredBy_year_bounds_witness :
    Document.CoveredBy sampleClock { Issued := [[2000, 1, 1]], Volume := "x", Issue := "9" }
      { FromYear := 1999, ToYear := 2001 } = none ∧
    Document.CoveredBy sampleClock { Issued := [[2002, 1, 1]], Volume := "x", Issue := "9" }
      { FromYear := 1999, ToYear := 2001 } = some "to-year 2001 < 2002" :=
  ⟨(CoveredBy_year_bounds sampleClock { Issued := [[2000, 1, 1]], Volume := "x", Issue := "9" }
      { FromYear := 1999, ToYear := 2001 } 2000 rfl rfl rfl rfl).1.mpr (by decide),
    (CoveredBy_year_bounds sampleClock { Issued := [[2002, 1, 1]], Volume := "x", Issue := "9" }
      { FromYear := 1999, ToYear := 2001 } 2002 rfl rfl rfl rfl).2.2 (by decide) (by decide)⟩

theorem CoveredBy_moving_wall_witness :
    Document.CoveredBy sampleClock { Issued := [[2026, 6, 1]] }
      { FromYear := 2000, ToYear := 2030, FromDelay := "-1Y" } = some "moving-wall violation" ∧
    Document.CoveredBy sampleClock { Issued := [[2025, 6, 1]] }
      { FromYear := 2000, ToYear := 2030, FromDelay := "-1Y" } =
      Document.CoveredBy sampleClock { Issued := [[2025, 6, 1]] }
        { FromYear := 2000, ToYear := 2030 } :=
  ⟨((CoveredBy_moving_wall sampleClock { Issued := [[2026, 6, 1]] }
      { FromYear := 2000, ToYear := 2030, FromDelay := "-1Y" } ⟨2026, 6, 1⟩ ⟨2025, 11, 4⟩
      rfl (by decide) rfl).1 (by decide)).2 (by decide),
    (CoveredBy_moving_wall sampleClock { Issued := [[2025, 6, 1]] }
      { FromYear := 2000, ToYear := 2030, FromDelay := "-1Y" } ⟨2025, 6, 1⟩ ⟨2025, 11, 4⟩
      rfl (by decide) rfl).2 (by decide)⟩

theorem StringSet_Add_spec_witness :
    (⟨some ["a"]⟩ : StringSet).set ≠ none ∧
    ∃ after, (⟨some ["a"]⟩ : StringSet).Add "b" = .ok (after, true) ∧ after.Size = 1 + 1 :=
  ⟨by decide,
    match (StringSet_Add_spec ⟨some ["a"]⟩ "b" (by decide)).2 with
    | ⟨after, added, hadd, _, hiff, _, _, hsize, _⟩ =>
      have ht : added = true := hiff.mpr (by decide)
      ⟨after, ht ▸ hadd, hsize ht⟩⟩

theorem PackageFilter_accepts_witness :
    ∃ f, PackageFilter.UnmarshalJSON (packageFragment ["p", "q"]) = .ok f ∧
      f.Apply { sampleDoc "1" [] with Packages := ["x", "q"] } = true :=
  match PackageFilter_accepts ["p", "q"] { sampleDoc "1" [] with Packages := ["x", "q"] } with
  | ⟨f, hf, hiff, _⟩ => ⟨f, hf, hiff.mpr ⟨"q", by decide, by decide⟩⟩

theorem Label_keys_strictly_ascending_witness :
    (sampleLabeler.Label sampleEnv sampleWorld (sampleDoc "5" ["ColB", "ColA"])).world.stdout =
      [] ++ [labelLine (sampleDoc "5" ["ColB", "ColA"]) (sortStrings ["DE-14", "DE-15"])] ∧
    (sortStrings ["DE-14", "DE-15"]).Pairwise (fun a b => strLe a b ∧ a ≠ b) :=
  have t := Label_keys_strictly_ascending sampleEnv sampleWorld sampleLabeler
    (sampleDoc "5" ["ColB", "ColA"])
    [scanRow (amslAttach "DE-15" "ColA"), scanRow (amslAttach "DE-14" "ColB")]
    ((sampleLabeler.openDb sampleEnv).1.matchingRows sampleWorld
      (sampleDoc "5" ["ColB", "ColA"])).world
    ⟨[]⟩ ["DE-14", "DE-15"] rfl rfl rfl
  ⟨t.2.1, t.2.2.1⟩

end Span
